import Mathlib

/-!
Verification development for the PRISim visibility delay-spectrum pipeline
(`src/modules/delay_spectrum.py` and `src/modules/interferometry.py`).

Embedding conventions:
* numpy arrays are embedded as rational-valued lists (the real-dtype
  instantiation of the dtype-generic numpy code); 3-D visibility cubes are
  nested lists indexed (baseline, channel-or-lag, snapshot), matching the
  source's axis order.
* The discrete Fourier transforms performed by `DSP.FT1D`/`NP.fft.fft`
  (exp(∓2πi·kn/L) kernels) are embedded as transforms parametrised by the
  kernel root `w : ℚ`; the source instantiates the root at exp(∓2πi/L).
  All structural facts proved below (linearity, lengths, shift conventions,
  padding) hold for every root, and concrete witnesses instantiate L = 2
  where the root −1 is rational, so every evaluation is exact.
* numpy `std` values are irrational square roots; the code only ever
  compares two of them, and comparison of standard deviations is equivalent
  to comparison of the mean squared deviations, so the embedding carries the
  mean squared deviation (`mvarQ`) instead.
* `aipy.deconv.clean` is a third-party collaborator (not part of this
  repository); `_gentle_clean` is embedded parametrically in that one-pass
  deconvolver (`CleanPass`), so the theorems about `_gentle_clean`'s own
  control flow hold for every behaviour of the collaborator.
* `my_DSP_modules` (`DSP.spectral_axis`, `DSP.FT1D`, `DSP.downsampler`) and
  `baseline_delay_horizon` are modules of this repository that are not under
  `src/`; their definitions below are modelled from the spec and marked so.
-/

namespace PRISim

/-- Array element access with numpy-style fixed shapes: a rank-2 array,
channel × snapshot. -/
abbrev Vec := List ℚ

/-- A rank-3 visibility cube, baseline × channel × snapshot. -/
abbrev Cube := List (List (List ℚ))

/-- Element of a rank-3 cube (0 outside the stored extent). -/
def getD3 (c : Cube) (b k s : ℕ) : ℚ := ((c.getD b []).getD k []).getD s 0

/-- Build a vector of length n from an index formula. -/
def buildVec (n : ℕ) (f : ℕ → ℚ) : Vec := (List.range n).map f

/-- Build a cube of the given dims from an index formula. -/
def buildCube (nbl L na : ℕ) (f : ℕ → ℕ → ℕ → ℚ) : Cube :=
  (List.range nbl).map (fun b =>
    (List.range L).map (fun k => (List.range na).map (fun s => f b k s)))

/-- numpy fftfreq index ordering: 0,1,…,⌈n/2⌉−1,−⌊n/2⌋,…,−1. -/
def fftIdx (n k : ℕ) : ℤ := if k ≤ (n - 1) / 2 then (k : ℤ) else (k : ℤ) - n

/-- Modelled from the spec: `DSP.spectral_axis(n, delx=df, shift=False)`,
the delay axis in natural FFT order, values spaced by 1/(n·df)
(spec §3 "Delay axis"). -/
def spectralAxis (n : ℕ) (df : ℚ) : Vec :=
  (List.range n).map (fun k => (fftIdx n k : ℚ) / ((n : ℚ) * df))

/-- numpy fftshift index map: entry n of the shifted array is entry
(n + ⌈L/2⌉) mod L of the unshifted one. -/
def fftshiftIdx (L n : ℕ) : ℕ := (n + (L + 1) / 2) % L

/-- numpy fftshift of a vector. -/
def fftshiftVec (xs : Vec) : Vec :=
  (List.range xs.length).map (fun n => xs.getD (fftshiftIdx xs.length n) 0)

/-- numpy fftshift along axis 1 of a cube. -/
def fftshiftCube (nbl L na : ℕ) (c : Cube) : Cube :=
  buildCube nbl L na (fun b n s => getD3 c b (fftshiftIdx L n) s)

/-- Modelled from the spec: forward DFT along a vector with kernel root w
(the source uses w = exp(−2πi/L) via `NP.fft.fft`); X_n = Σ_k x_k·w^(k·n). -/
def dftVec (w : ℚ) (x : Vec) : Vec :=
  (List.range x.length).map (fun n =>
    ((List.range x.length).map (fun k => x.getD k 0 * w ^ (k * n))).sum)

/-- Modelled from the spec: forward DFT along axis 1 of a cube, root w. -/
def dftCube (w : ℚ) (nbl L na : ℕ) (c : Cube) : Cube :=
  buildCube nbl L na (fun b n s =>
    ((List.range L).map (fun k => getD3 c b k s * w ^ (k * n))).sum)

/-- Modelled from the spec: `DSP.FT1D(…, inverse=True, shift=False)` along
axis 1, root w (the source uses w = exp(+2πi/L)); the 1/L normalisation of
`numpy.fft.ifft` is included. -/
def idftCube (w : ℚ) (nbl L na : ℕ) (c : Cube) : Cube :=
  buildCube nbl L na (fun b n s =>
    ((List.range L).map (fun k => getD3 c b k s * w ^ (k * n))).sum / (L : ℚ))

/-- Scale every cube entry by q. -/
def scaleCube (q : ℚ) (c : Cube) : Cube :=
  c.map (fun m => m.map (fun r => r.map (fun x => q * x)))

/-- Elementwise sum of two cubes of the given dims. -/
def addCube (nbl L na : ℕ) (a b : Cube) : Cube :=
  buildCube nbl L na (fun i k s => getD3 a i k s + getD3 b i k s)

/-- Elementwise product of three cubes (vis·bp·bp_wts), dims nbl × N × na. -/
def mulCube3 (nbl N na : ℕ) (a b c : Cube) : Cube :=
  buildCube nbl N na (fun i k s => getD3 a i k s * getD3 b i k s * getD3 c i k s)

/-- Elementwise product of two cubes (bp·bp_wts), dims nbl × N × na. -/
def mulCube2 (nbl N na : ℕ) (a b : Cube) : Cube :=
  buildCube nbl N na (fun i k s => getD3 a i k s * getD3 b i k s)

/-- `NP.pad(c, ((0,0),(0,npad),(0,0)), mode='constant')`: append npad zero
channels along axis 1. -/
def padCube (nbl N na npad : ℕ) (c : Cube) : Cube :=
  buildCube nbl (N + npad) na (fun b k s => if k < N then getD3 c b k s else 0)

/-- Modelled from the spec: `DSP.downsampler(xs, factor)` decimates by
subsampling every factor-th bin (spec §4.2: "subsampling every (1+pad)-th
output bin (not averaging) … must reproduce the exact decimation stride"). -/
def downsampler {α : Type} (d : α) (xs : List α) (f : ℚ) : List α :=
  ((List.range xs.length).filter
      (fun (i : ℕ) => decide ((i : ℚ) * f < (xs.length : ℚ)))).map
    (fun (i : ℕ) => xs.getD (Int.toNat (Int.floor ((i : ℚ) * f))) d)

/-- Downsample a cube along axis 1. -/
def downsampleCube (f : ℚ) (c : Cube) : Cube :=
  c.map (fun m => downsampler [] m f)

/-! ### `_gentle_clean` (src/modules/delay_spectrum.py lines 56-102) -/

/-- `NP.nanmax(NP.abs(w))` for a real-dtype array. -/
def maxAbs (xs : Vec) : ℚ := (xs.map (fun x => |x|)).foldr max 0

/-- `xs[area != 0]` when inside = true, `xs[area == 0]` when inside = false. -/
def selArea (xs : Vec) (area : List Bool) (inside : Bool) : Vec :=
  ((xs.zip area).filter (fun p => p.2 == inside)).map (fun p => p.1)

/-- Arithmetic mean of a list (numpy mean; 0 on the empty list under the
rational 0/0 = 0 convention, where numpy yields nan — the code paths below
compare such values only in ways where both conventions select the same
branch). -/
def meanQ (xs : Vec) : ℚ := xs.sum / (xs.length : ℚ)

/-- Mean squared deviation of a list. `NP.std(xs)` is its square root; the
source only ever compares two standard deviations, and comparison of square
roots of nonnegative rationals is equivalent to comparison of the radicands,
so the embedding carries this value instead of the standard deviation. -/
def mvarQ (xs : Vec) : ℚ :=
  ((xs.map (fun x => (x - meanQ xs) ^ 2)).sum) / (xs.length : ℚ)

/-- The one-pass deconvolver `aipy.deconv.clean`, a third-party collaborator:
arguments (dd, w, area, stop_if_div, pos_def, tol, maxiter), result
(cc, info['res']). `_gentle_clean` is embedded parametrically in it. -/
abbrev CleanPass := Vec → Vec → List Bool → Bool → Bool → ℚ → ℕ → Vec × Vec

/-- State of `_gentle_clean`'s main while loop: the working spectrum `dd`,
the accumulated components `cc`, the last residual (`info['res']`), the
mean-squared in-window and out-of-window residual deviations (whose square
roots are the source's `inside_res`/`outside_res`), and the cycle counter. -/
structure GCState where
  dd : Vec
  cc : Vec
  res : Vec
  insideV : ℚ
  outsideV : ℚ
  ncycle : ℕ

/-- One iteration of `_gentle_clean`'s main while loop (lines 84-91): run
one pass of the deconvolver with `pos_def=True`, take its residual as the
new working spectrum, accumulate components, recompute the two residual
deviations, and increment the cycle counter. -/
def gcStep (p : CleanPass) (w1 : Vec) (area : List Bool) (stopIfDiv : Bool)
    (tol : ℚ) (maxiter : ℕ) (st : GCState) : GCState :=
  let pr := p st.dd w1 area stopIfDiv true tol maxiter
  { dd := pr.2
    cc := List.zipWith (fun a b => a + b) st.cc pr.1
    res := pr.2
    insideV := mvarQ (selArea pr.2 area true)
    outsideV := mvarQ (selArea pr.2 area false)
    ncycle := st.ncycle + 1 }

/-- The main while loop of `_gentle_clean` (lines 82-92): while
`inside_res > outside_res and maxiter > 0`, run one `gcStep` and break
once the cycle counter exceeds 1000. The fuel argument (1001 at the call
site) dominates the 1000-cycle hard break, so the recursion is total
without altering any reachable behaviour. -/
def gcLoop (p : CleanPass) (w1 : Vec) (area : List Bool) (stopIfDiv : Bool)
    (tol : ℚ) (maxiter : ℕ) : ℕ → GCState → GCState
  | 0, st => st
  | fuel + 1, st =>
    if st.insideV > st.outsideV ∧ 0 < maxiter then
      if (gcStep p w1 area stopIfDiv tol maxiter st).ncycle > 1000 then
        gcStep p w1 area stopIfDiv tol maxiter st
      else
        gcLoop p w1 area stopIfDiv tol maxiter fuel
          (gcStep p w1 area stopIfDiv tol maxiter st)
    else st

/-- Results of `_gentle_clean`: the returned components `cc` and residual
`info['res']`, the final contents of the caller's spectrum buffer `ddBuf`
and PSF buffer `wBuf` (the function mutates both arguments in place), the
number of main-loop iterations executed, the reported `info['ncycle']`
(= iterations − 1, so −1 when the loop never ran), and the number of
invocations of the one-pass deconvolver. -/
structure GCResult where
  cc : Vec
  res : Vec
  ddBuf : Vec
  wBuf : Vec
  cycles : ℕ
  ncycleReported : ℤ
  passCalls : ℕ

/-- The normalisation scale `scale_factor` (lines 62-64):
`NP.nanmax(NP.abs(w))` when autoscale, else 1. -/
def gcScale (w : Vec) (autoscale : Bool) : ℚ := if autoscale then maxAbs w else 1

/-- The working spectrum after the in-place `dd /= scale_factor` (line 65). -/
def ddScaled (dd w : Vec) (autoscale : Bool) : Vec :=
  dd.map (fun x => x / gcScale w autoscale)

/-- The PSF after the in-place `w /= scale_factor` (line 66). -/
def wScaled (w : Vec) (autoscale : Bool) : Vec :=
  w.map (fun x => x / gcScale w autoscale)

/-- The loop state entering the main while loop (lines 68-81): the scaled
spectrum, a zeroed `cc` (the diagnostic first pass's components are
discarded, line 72), the first pass's residual as `info['res']`, and the
artificial `inside_res = 2*outside_res` (line 81; in mean-square form a
factor 4) that forces at least one iteration whenever the out-of-window
deviation is positive. -/
def gcInit (p : CleanPass) (dd w : Vec) (area : List Bool) (tol : ℚ)
    (maxiter : ℕ) (autoscale : Bool) : GCState :=
  let dd1 := ddScaled dd w autoscale
  let fp := p dd1 (wScaled w autoscale) area false false tol maxiter
  let ov := mvarQ (selArea dd1 area false)
  { dd := dd1, cc := List.replicate dd1.length 0, res := fp.2
    insideV := 4 * ov, outsideV := ov, ncycle := 0 }

/-- The loop state after the main while loop of `_gentle_clean`. -/
def gcFinal (p : CleanPass) (dd w : Vec) (area : List Bool) (tol : ℚ)
    (stopIfDiv : Bool) (maxiter : ℕ) (autoscale : Bool) : GCState :=
  gcLoop p (wScaled w autoscale) area stopIfDiv tol maxiter 1001
    (gcInit p dd w area tol maxiter autoscale)

/-- `_gentle_clean(dd, w, tol, area, stop_if_div, maxiter, autoscale)`
(lines 56-102). The function divides `dd` and `w` in place by
`scale = nanmax(|w|)`, runs one diagnostic pass whose components are
discarded, zeroes `cc`, runs the main loop, then multiplies `dd`, `w` and
`cc` by the scale. Because the loop rebinds the local name `dd` to the
pass residual, the final `dd *= scale` restores the caller's buffer only
when the loop ran zero times; otherwise the buffer keeps the scaled values
and the last residual object (`info['res']`) is what gets rescaled, while
a zero-cycle run leaves `info['res']` (the diagnostic pass's residual) at
the scaled-down values. The source raises no exception on any path (numpy
division by an all-zero scale emits a warning and produces non-finite
values; the rational embedding yields zeros — in both conventions the main
loop then runs zero times, since comparisons with nan are false). -/
def gentleClean (p : CleanPass) (dd w : Vec) (area : List Bool) (tol : ℚ)
    (stopIfDiv : Bool) (maxiter : ℕ) (autoscale : Bool) : GCResult :=
  let scale := gcScale w autoscale
  let fin := gcFinal p dd w area tol stopIfDiv maxiter autoscale
  { cc := fin.cc.map (fun x => x * scale)
    res := if fin.ncycle = 0 then fin.res else fin.res.map (fun x => x * scale)
    ddBuf := if fin.ncycle = 0 then (ddScaled dd w autoscale).map (fun x => x * scale)
             else ddScaled dd w autoscale
    wBuf := (wScaled w autoscale).map (fun x => x * scale)
    cycles := fin.ncycle
    ncycleReported := (fin.ncycle : ℤ) - 1
    passCalls := 1 + fin.ncycle }

/-! ### `DelaySpectrum` state and `clean()`
(src/modules/delay_spectrum.py lines 518-628) -/

/-- The attributes of a `DelaySpectrum` instance consumed by
`delay_transform()` and `clean()`: dimensions (baselines, channels,
accumulations), frequency resolution, the three frequency-domain cubes, the
bandpass and bandpass-weight cubes, and the horizon delay limits
`horizon_delay_limits[s, b, 0/1]` given as min/max functions of
(snapshot, baseline). -/
structure SimParams where
  nbl : ℕ
  N : ℕ
  na : ℕ
  df : ℚ
  skyvisFreq : Cube
  visFreq : Cube
  visNoiseFreq : Cube
  bp : Cube
  bpWts : Cube
  horizonLo : ℕ → ℕ → ℚ
  horizonHi : ℕ → ℕ → ℚ

/-- `npad = int(self.f.size * pad)` — Python `int()` truncates. -/
def cleanNpad (N : ℕ) (padv : ℚ) : ℕ := Int.toNat (Int.floor ((N : ℚ) * padv))

/-- Number of delay bins of the padded transform, `f.size + npad`. -/
def cleanL (N : ℕ) (padv : ℚ) : ℕ := N + cleanNpad N padv

/-- The unshifted lag axis used inside `clean()` (line 569). -/
def cleanLags (P : SimParams) (padv : ℚ) : Vec := spectralAxis (cleanL P.N padv) P.df

/-- `self.ia.skyvis_freq * self.bp * self.bp_wts`. -/
def weightedSky (P : SimParams) : Cube :=
  mulCube3 P.nbl P.N P.na P.skyvisFreq P.bp P.bpWts

/-- `self.ia.vis_freq * self.bp * self.bp_wts`. -/
def weightedVis (P : SimParams) : Cube :=
  mulCube3 P.nbl P.N P.na P.visFreq P.bp P.bpWts

/-- The padded, scaled inverse delay transform of a weighted frequency
cube: `(npad + f.size) * df * DSP.FT1D(NP.pad(w, …), inverse=True,
shift=False)`. This is also the spec-side formula for the lag kernel
(spec §3: "Lag kernel: delay-domain transform of bp * bp_wts"), exposed as
a named definition so code-side kernels can be compared against it. -/
def lagTransform (wi : ℚ) (nbl N na : ℕ) (df padv : ℚ) (w : Cube) : Cube :=
  scaleCube (((N + cleanNpad N padv : ℕ) : ℚ) * df)
    (idftCube wi nbl (cleanL N padv) na (padCube nbl N na (cleanNpad N padv) w))

/-- The sky-visibility delay cube computed in `clean()` (line 573). -/
def skyLagCube (wi : ℚ) (P : SimParams) (padv : ℚ) : Cube :=
  lagTransform wi P.nbl P.N P.na P.df padv (weightedSky P)

/-- The observed-visibility delay cube computed in `clean()` (line 574). -/
def visLagCube (wi : ℚ) (P : SimParams) (padv : ℚ) : Cube :=
  lagTransform wi P.nbl P.N P.na P.df padv (weightedVis P)

/-- The lag kernel computed in `clean()` (line 575): note the source
transforms `self.bp` alone, without `self.bp_wts`. -/
def cleanKernelCube (wi : ℚ) (P : SimParams) (padv : ℚ) : Cube :=
  lagTransform wi P.nbl P.N P.na P.df padv P.bp

/-- The 1-D slice `c[b, :, s]` handed to `_gentle_clean`. -/
def sliceCube (c : Cube) (L b s : ℕ) : Vec :=
  (List.range L).map (fun k => getD3 c b k s)

/-- The clean window of one (snapshot, baseline) unit (line 587):
lags within `[horizon_lo − buffer/bw, horizon_hi + buffer/bw]`. -/
def windowMask (lags : Vec) (lo hi buf bw : ℚ) : List Bool :=
  lags.map (fun t => decide (lo - buf / bw ≤ t ∧ t ≤ hi + buf / bw))

/-- Pointwise or of two masks. -/
def orMask (a b : List Bool) : List Bool := List.zipWith or a b

/-- The contents of the `clean_area` buffer after the first u units have
been processed (units in source order: snapshots outer, baselines inner,
so unit u is snapshot u / nbl, baseline u % nbl). The buffer is allocated
once outside both loops (line 572) and only ever has ones written into it
(line 587), so each unit's window is or-ed onto everything before it. -/
def cleanAreaUpto (P : SimParams) (padv buf bw : ℚ) : ℕ → List Bool
  | 0 => List.replicate (cleanL P.N padv) false
  | u + 1 =>
    orMask (cleanAreaUpto P padv buf bw u)
      (windowMask (cleanLags P padv) (P.horizonLo (u / P.nbl) (u % P.nbl))
        (P.horizonHi (u / P.nbl) (u % P.nbl)) buf bw)

/-- The mask in effect when unit (s, b) calls `_gentle_clean`: the buffer
state after that unit's own window has been or-ed in. -/
def maskUsed (P : SimParams) (padv buf bw : ℚ) (b s : ℕ) : List Bool :=
  cleanAreaUpto P padv buf bw (s * P.nbl + b + 1)

/-- The `_gentle_clean` call on the sky-visibility slice of unit (b, s)
(line 590): tol 0.1 and maxiter 100 are the defaults, stop_if_div=False,
autoscale=True. -/
def gcSkyUnit (p : CleanPass) (wi : ℚ) (P : SimParams) (padv buf : ℚ)
    (b s : ℕ) : GCResult :=
  gentleClean p (sliceCube (skyLagCube wi P padv) (cleanL P.N padv) b s)
    (sliceCube (cleanKernelCube wi P padv) (cleanL P.N padv) b s)
    (maskUsed P padv buf (P.df * (P.N : ℚ)) b s) (1 / 10) false 100 true

/-- The `_gentle_clean` call on the observed-visibility slice of unit
(b, s) (line 594); the kernel slice it receives was restored exactly by
the preceding sky call (see `gentleClean_wBuf` below). -/
def gcVisUnit (p : CleanPass) (wi : ℚ) (P : SimParams) (padv buf : ℚ)
    (b s : ℕ) : GCResult :=
  gentleClean p (sliceCube (visLagCube wi P padv) (cleanL P.N padv) b s)
    (sliceCube (cleanKernelCube wi P padv) (cleanL P.N padv) b s)
    (maskUsed P padv buf (P.df * (P.N : ℚ)) b s) (1 / 10) false 100 true

/-- All attributes stored by `clean()` (lines 601-628), together with the
pre-fftshift component/residual cubes, which the frequency-domain products
are computed from. -/
structure CleanOut where
  lags : Vec
  deta : ℚ
  skyvisLag : Cube
  visLag : Cube
  lagKernel : Cube
  ccSkyRaw : Cube
  ccSkyResRaw : Cube
  ccVisRaw : Cube
  ccVisResRaw : Cube
  ccSkyLag : Cube
  ccSkyResLag : Cube
  ccVisLag : Cube
  ccVisResLag : Cube
  ccSkyNetLag : Cube
  ccVisNetLag : Cube
  ccSkyFreq : Cube
  ccSkyResFreq : Cube
  ccVisFreq : Cube
  ccVisResFreq : Cube
  ccSkyNetFreq : Cube
  ccVisNetFreq : Cube

/-- `deta = lags[1] - lags[0]` (line 601), the lag-bin width. -/
def cleanDeta (P : SimParams) (padv : ℚ) : ℚ :=
  (cleanLags P padv).getD 1 0 - (cleanLags P padv).getD 0 0

/-- The `skyvis_lag` buffer after the double loop: each unit's
`_gentle_clean` call mutated only its own slice in place. -/
def skyBufCube (p : CleanPass) (wi : ℚ) (P : SimParams) (padv buf : ℚ) : Cube :=
  buildCube P.nbl (cleanL P.N padv) P.na (fun b n s =>
    (gcSkyUnit p wi P padv buf b s).ddBuf.getD n 0)

/-- The `vis_lag` buffer after the double loop. -/
def visBufCube (p : CleanPass) (wi : ℚ) (P : SimParams) (padv buf : ℚ) : Cube :=
  buildCube P.nbl (cleanL P.N padv) P.na (fun b n s =>
    (gcVisUnit p wi P padv buf b s).ddBuf.getD n 0)

/-- The `lag_kernel` buffer after the double loop: each slice was divided
and multiplied back in place, its last write coming from the unit's second
(`vis`) `_gentle_clean` call. -/
def kernelBufCube (p : CleanPass) (wi : ℚ) (P : SimParams) (padv buf : ℚ) : Cube :=
  buildCube P.nbl (cleanL P.N padv) P.na (fun b n s =>
    (gcVisUnit p wi P padv buf b s).wBuf.getD n 0)

/-- `ccomponents_noiseless` assembled from the per-unit results (line 591). -/
def ccSkyRawCube (p : CleanPass) (wi : ℚ) (P : SimParams) (padv buf : ℚ) : Cube :=
  buildCube P.nbl (cleanL P.N padv) P.na (fun b n s =>
    (gcSkyUnit p wi P padv buf b s).cc.getD n 0)

/-- `ccres_noiseless` assembled from the per-unit results (line 592). -/
def ccSkyResRawCube (p : CleanPass) (wi : ℚ) (P : SimParams) (padv buf : ℚ) : Cube :=
  buildCube P.nbl (cleanL P.N padv) P.na (fun b n s =>
    (gcSkyUnit p wi P padv buf b s).res.getD n 0)

/-- `ccomponents_noisy` assembled from the per-unit results (line 595). -/
def ccVisRawCube (p : CleanPass) (wi : ℚ) (P : SimParams) (padv buf : ℚ) : Cube :=
  buildCube P.nbl (cleanL P.N padv) P.na (fun b n s =>
    (gcVisUnit p wi P padv buf b s).cc.getD n 0)

/-- `ccres_noisy` assembled from the per-unit results (line 596). -/
def ccVisResRawCube (p : CleanPass) (wi : ℚ) (P : SimParams) (padv buf : ℚ) : Cube :=
  buildCube P.nbl (cleanL P.N padv) P.na (fun b n s =>
    (gcVisUnit p wi P padv buf b s).res.getD n 0)

/-- `cc_skyvis = NP.fft.fft(ccomponents_noiseless, axis=1) * deta` (line 602). -/
def ccSkyFreqCube (p : CleanPass) (wi wf : ℚ) (P : SimParams) (padv buf : ℚ) : Cube :=
  scaleCube (cleanDeta P padv)
    (dftCube wf P.nbl (cleanL P.N padv) P.na (ccSkyRawCube p wi P padv buf))

/-- `cc_skyvis_res = NP.fft.fft(ccres_noiseless, axis=1) * deta` (line 603). -/
def ccSkyResFreqCube (p : CleanPass) (wi wf : ℚ) (P : SimParams) (padv buf : ℚ) : Cube :=
  scaleCube (cleanDeta P padv)
    (dftCube wf P.nbl (cleanL P.N padv) P.na (ccSkyResRawCube p wi P padv buf))

/-- `cc_vis = NP.fft.fft(ccomponents_noisy, axis=1) * deta` (line 605). -/
def ccVisFreqCube (p : CleanPass) (wi wf : ℚ) (P : SimParams) (padv buf : ℚ) : Cube :=
  scaleCube (cleanDeta P padv)
    (dftCube wf P.nbl (cleanL P.N padv) P.na (ccVisRawCube p wi P padv buf))

/-- `cc_vis_res = NP.fft.fft(ccres_noisy, axis=1) * deta` (line 606). -/
def ccVisResFreqCube (p : CleanPass) (wi wf : ℚ) (P : SimParams) (padv buf : ℚ) : Cube :=
  scaleCube (cleanDeta P padv)
    (dftCube wf P.nbl (cleanL P.N padv) P.na (ccVisResRawCube p wi P padv buf))

/-- `DelaySpectrum.clean()` after the pad has been validated, embedded
parametrically in the one-pass deconvolver p and the transform roots wi
(inverse transform, exp(+2πi/L) in the source) and wf (forward `NP.fft.fft`,
exp(−2πi/L)). The phase-center direction-cosine conversion (lines 560-566)
feeds only commented-out code and is omitted. Assembles the attribute
stores of lines 601-628 from the per-field definitions above. -/
def cleanCore (p : CleanPass) (wi wf : ℚ) (P : SimParams) (padv buf : ℚ) :
    CleanOut :=
  { lags := fftshiftVec (cleanLags P padv)
    deta := cleanDeta P padv
    skyvisLag := fftshiftCube P.nbl (cleanL P.N padv) P.na (skyBufCube p wi P padv buf)
    visLag := fftshiftCube P.nbl (cleanL P.N padv) P.na (visBufCube p wi P padv buf)
    lagKernel := fftshiftCube P.nbl (cleanL P.N padv) P.na (kernelBufCube p wi P padv buf)
    ccSkyRaw := ccSkyRawCube p wi P padv buf
    ccSkyResRaw := ccSkyResRawCube p wi P padv buf
    ccVisRaw := ccVisRawCube p wi P padv buf
    ccVisResRaw := ccVisResRawCube p wi P padv buf
    ccSkyLag := fftshiftCube P.nbl (cleanL P.N padv) P.na (ccSkyRawCube p wi P padv buf)
    ccSkyResLag := fftshiftCube P.nbl (cleanL P.N padv) P.na (ccSkyResRawCube p wi P padv buf)
    ccVisLag := fftshiftCube P.nbl (cleanL P.N padv) P.na (ccVisRawCube p wi P padv buf)
    ccVisResLag := fftshiftCube P.nbl (cleanL P.N padv) P.na (ccVisResRawCube p wi P padv buf)
    ccSkyNetLag := addCube P.nbl (cleanL P.N padv) P.na
      (fftshiftCube P.nbl (cleanL P.N padv) P.na (ccSkyRawCube p wi P padv buf))
      (fftshiftCube P.nbl (cleanL P.N padv) P.na (ccSkyResRawCube p wi P padv buf))
    ccVisNetLag := addCube P.nbl (cleanL P.N padv) P.na
      (fftshiftCube P.nbl (cleanL P.N padv) P.na (ccVisRawCube p wi P padv buf))
      (fftshiftCube P.nbl (cleanL P.N padv) P.na (ccVisResRawCube p wi P padv buf))
    ccSkyFreq := ccSkyFreqCube p wi wf P padv buf
    ccSkyResFreq := ccSkyResFreqCube p wi wf P padv buf
    ccVisFreq := ccVisFreqCube p wi wf P padv buf
    ccVisResFreq := ccVisResFreqCube p wi wf P padv buf
    ccSkyNetFreq := addCube P.nbl (cleanL P.N padv) P.na
      (ccSkyFreqCube p wi wf P padv buf) (ccSkyResFreqCube p wi wf P padv buf)
    ccVisNetFreq := addCube P.nbl (cleanL P.N padv) P.na
      (ccVisFreqCube p wi wf P padv buf) (ccVisResFreqCube p wi wf P padv buf) }

/-- `DelaySpectrum.clean(pad, …)` including the pad validation (lines
552-557): a negative pad is reset to 0.0 with only a diagnostic print. -/
def cleanEmbed (p : CleanPass) (wi wf : ℚ) (P : SimParams) (pad buf : ℚ) :
    CleanOut :=
  cleanCore p wi wf P (if pad < 0 then 0 else pad) buf

/-! ### `DelaySpectrum.delay_transform()`
(src/modules/delay_spectrum.py lines 413-514) -/

/-- Attributes stored by `delay_transform()`: the lag axis and the four
transformed cubes, both as computed (pre-downsample, the `Full` fields)
and as stored after the optional downsampling, plus the recorded pad. -/
structure DTOut where
  lagsFull : Vec
  skyvisLagFull : Cube
  visLagFull : Cube
  visNoiseLagFull : Cube
  lagKernelFull : Cube
  lags : Vec
  skyvisLag : Cube
  visLag : Cube
  visNoiseLag : Cube
  lagKernel : Cube
  padStored : ℚ

/-- `delay_transform()` after the pad has been validated (lines 486-514),
with the default `freq_wts=None` (the stored `bp_wts` is used unchanged).
The lag axis is `DSP.spectral_axis(int(f.size*(1+pad)), shift=True)`; the
transforms use `shift=True`, i.e. the fftshift of the padded scaled inverse
transform. The source's `pad == 0.0` branch is the `npad = 0` case of the
general branch, so both are embedded by one formula. Here the lag kernel
is the transform of `bp * bp_wts` (lines 491 and 499). If downsample is
set, all products are decimated by the factor 1 + pad. -/
def dtCore (wi : ℚ) (P : SimParams) (padv : ℚ) (downsample : Bool) : DTOut :=
  let L := cleanL P.N padv
  let lagsFull := fftshiftVec
    (spectralAxis (Int.toNat (Int.floor ((P.N : ℚ) * (1 + padv)))) P.df)
  let sky := fftshiftCube P.nbl L P.na (lagTransform wi P.nbl P.N P.na P.df padv (weightedSky P))
  let vis := fftshiftCube P.nbl L P.na (lagTransform wi P.nbl P.N P.na P.df padv (weightedVis P))
  let noise := fftshiftCube P.nbl L P.na (lagTransform wi P.nbl P.N P.na P.df padv
    (mulCube3 P.nbl P.N P.na P.visNoiseFreq P.bp P.bpWts))
  let kern := fftshiftCube P.nbl L P.na (lagTransform wi P.nbl P.N P.na P.df padv
    (mulCube2 P.nbl P.N P.na P.bp P.bpWts))
  { lagsFull := lagsFull
    skyvisLagFull := sky
    visLagFull := vis
    visNoiseLagFull := noise
    lagKernelFull := kern
    lags := if downsample then downsampler 0 lagsFull (1 + padv) else lagsFull
    skyvisLag := if downsample then downsampleCube (1 + padv) sky else sky
    visLag := if downsample then downsampleCube (1 + padv) vis else vis
    visNoiseLag := if downsample then downsampleCube (1 + padv) noise else noise
    lagKernel := if downsample then downsampleCube (1 + padv) kern else kern
    padStored := padv }

/-- `delay_transform(pad, …)` including the pad validation (lines 458-463):
a negative pad is reset to 0.0 with only a diagnostic print. -/
def dtEmbed (wi : ℚ) (P : SimParams) (pad : ℚ) (downsample : Bool) : DTOut :=
  dtCore wi P (if pad < 0 then 0 else pad) downsample

/-! ### `Interferometer.band_averaged_noise_estimate`
(src/modules/interferometry.py lines 1169-1403) -/

/-- The two processing strategies of `band_averaged_noise_estimate`: one
batched pass over all timestamps using the common zenith horizon limit
`baseline_length/c`, or one pass per timestamp using that timestamp's own
horizon limits. -/
inductive NoiseBranch
  | batched
  | perTimestamp
deriving DecidableEq

/-- The branch condition at line 1272:
`NP.any(NP.abs(delay_matrix[:,:,1]) > 0.5/len(self.channels)/self.freq_resolution)`,
where `delay_matrix[:,:,1]` are the pointing-center delay offsets. -/
def anyLargeOffset (offsets : List ℚ) (nchan : ℕ) (df : ℚ) : Bool :=
  offsets.any (fun d => decide (|d| > 1 / 2 / (nchan : ℚ) / df))

/-- Which branch `band_averaged_noise_estimate` takes: when the condition
at line 1272 is true the code enters the first branch, which batches all
timestamps together against the common zenith horizon limit (lines
1272-1347); otherwise it enters the per-timestamp loop (lines 1349-1401). -/
def noiseEstimateBranch (offsets : List ℚ) (nchan : ℕ) (df : ℚ) : NoiseBranch :=
  if anyLargeOffset offsets nchan df then NoiseBranch.batched
  else NoiseBranch.perTimestamp

/-! ### Spec-side definitions and concrete instances -/

/-- The lag kernel as the spec defines it (spec §3: "Lag kernel:
delay-domain transform of `bp * bp_wts`"; §4.2: padded with
`npad = nchan*pad` zero channels and scaled by `(nchan+npad)*df`), written
out independently for comparison with the kernels the code computes. -/
def specLagKernel (wi : ℚ) (nbl N na : ℕ) (df padv : ℚ) (bp bpWts : Cube) : Cube :=
  scaleCube (((N + cleanNpad N padv : ℕ) : ℚ) * df)
    (idftCube wi nbl (N + cleanNpad N padv) na
      (padCube nbl N na (cleanNpad N padv) (mulCube2 nbl N na bp bpWts)))

/-- An all-ones cube (the neutral bandpass weighting). -/
def onesCube (nbl N na : ℕ) : Cube := buildCube nbl N na (fun _ _ _ => 1)

/-- A concrete admissible behaviour of the external one-pass deconvolver:
it finds no components and returns the spectrum unchanged as residual. -/
def passZero : CleanPass := fun dd _ _ _ _ _ _ => (List.replicate dd.length 0, dd)

/-- Concrete instance: one baseline, two channels, one snapshot, unit df,
flat unit bandpass, frequency spectrum [1, 3], horizon window containing
only the zero lag. -/
def exTwoChan : SimParams :=
  { nbl := 1, N := 2, na := 1, df := 1
    skyvisFreq := [[[1], [3]]], visFreq := [[[1], [3]]], visNoiseFreq := [[[0], [0]]]
    bp := [[[1], [1]]], bpWts := [[[1], [1]]]
    horizonLo := fun _ _ => -(1 / 8), horizonHi := fun _ _ => 1 / 8 }

/-- Like `exTwoChan` but with the horizon window away from every lag, so
the clean mask is empty and the main `_gentle_clean` loop runs. -/
def exEmptyMask : SimParams :=
  { nbl := 1, N := 2, na := 1, df := 1
    skyvisFreq := [[[1], [3]]], visFreq := [[[1], [3]]], visNoiseFreq := [[[0], [0]]]
    bp := [[[1], [1]]], bpWts := [[[1], [1]]]
    horizonLo := fun _ _ => 5, horizonHi := fun _ _ => 6 }

/-- Like `exTwoChan` but with a non-unit bandpass weight on the second
channel, separating the transform of `bp` from that of `bp * bp_wts`. -/
def exWeighted : SimParams :=
  { nbl := 1, N := 2, na := 1, df := 1
    skyvisFreq := [[[1], [3]]], visFreq := [[[1], [3]]], visNoiseFreq := [[[0], [0]]]
    bp := [[[1], [1]]], bpWts := [[[1], [2]]]
    horizonLo := fun _ _ => -(1 / 8), horizonHi := fun _ _ => 1 / 8 }

/-- Concrete instance with two baselines whose horizon windows cover
disjoint lag sets (lag 0 for baseline 0, lag 1/4 for baseline 1), for
exhibiting the never-reset `clean_area` buffer. -/
def exTwoBl : SimParams :=
  { nbl := 2, N := 4, na := 1, df := 1
    skyvisFreq := [[[0], [0], [0], [0]], [[0], [0], [0], [0]]]
    visFreq := [[[0], [0], [0], [0]], [[0], [0], [0], [0]]]
    visNoiseFreq := [[[0], [0], [0], [0]], [[0], [0], [0], [0]]]
    bp := [[[1], [1], [1], [1]], [[1], [1], [1], [1]]]
    bpWts := [[[1], [1], [1], [1]], [[1], [1], [1], [1]]]
    horizonLo := fun _ b => if b = 0 then -(1 / 8) else 3 / 16
    horizonHi := fun _ b => if b = 0 then 1 / 8 else 5 / 16 }

/-- Concrete instance with ten channels for the pad-fraction length
arithmetic (the cube contents are irrelevant to the lengths). -/
def exTenChan : SimParams :=
  { nbl := 1, N := 10, na := 1, df := 1
    skyvisFreq := [[[0], [0], [0], [0], [0], [0], [0], [0], [0], [0]]]
    visFreq := [[[0], [0], [0], [0], [0], [0], [0], [0], [0], [0]]]
    visNoiseFreq := [[[0], [0], [0], [0], [0], [0], [0], [0], [0], [0]]]
    bp := [[[1], [1], [1], [1], [1], [1], [1], [1], [1], [1]]]
    bpWts := [[[1], [1], [1], [1], [1], [1], [1], [1], [1], [1]]]
    horizonLo := fun _ _ => 0, horizonHi := fun _ _ => 0 }

/-! ### Helper lemmas -/

theorem getD_map_range {α : Type} (f : ℕ → α) (n k : ℕ) (d : α) (h : k < n) :
    ((List.range n).map f).getD k d = f k := by
  rw [List.getD_eq_getElem?_getD, List.getElem?_map,
    List.getElem?_eq_getElem (by simpa using h)]
  simp

theorem getD_map (f : ℚ → ℚ) (xs : Vec) (k : ℕ) (h : k < xs.length) :
    (xs.map f).getD k 0 = f (xs.getD k 0) := by
  rw [List.getD_eq_getElem?_getD, List.getElem?_map, List.getElem?_eq_getElem h,
    List.getD_eq_getElem?_getD, List.getElem?_eq_getElem h]
  simp

theorem getD_map_gen {α β : Type} (f : α → β) (l : List α) (b : ℕ) (d : α) (e : β)
    (h : b < l.length) : (l.map f).getD b e = f (l.getD b d) := by
  rw [List.getD_eq_getElem?_getD, List.getElem?_map, List.getElem?_eq_getElem h,
    List.getD_eq_getElem?_getD, List.getElem?_eq_getElem h]
  simp

theorem buildCube_length (nbl L na : ℕ) (f : ℕ → ℕ → ℕ → ℚ) :
    (buildCube nbl L na f).length = nbl := by
  simp [buildCube]

theorem getD3_buildCube (nbl L na : ℕ) (f : ℕ → ℕ → ℕ → ℚ) (b k s : ℕ)
    (hb : b < nbl) (hk : k < L) (hs : s < na) :
    getD3 (buildCube nbl L na f) b k s = f b k s := by
  simp only [getD3, buildCube, getD_map_range, hb, hk, hs]

theorem buildCube_congr {nbl L na : ℕ} {f g : ℕ → ℕ → ℕ → ℚ}
    (h : ∀ b < nbl, ∀ k < L, ∀ s < na, f b k s = g b k s) :
    buildCube nbl L na f = buildCube nbl L na g := by
  unfold buildCube
  refine List.map_congr_left (fun b hb => ?_)
  refine List.map_congr_left (fun k hk => ?_)
  refine List.map_congr_left (fun s hs => ?_)
  exact h b (List.mem_range.mp hb) k (List.mem_range.mp hk) s (List.mem_range.mp hs)

theorem sliceCube_getD (c : Cube) (L b s k : ℕ) (h : k < L) :
    (sliceCube c L b s).getD k 0 = getD3 c b k s :=
  getD_map_range (fun k => getD3 c b k s) L k 0 h

theorem sliceCube_length (c : Cube) (L b s : ℕ) : (sliceCube c L b s).length = L := by
  simp [sliceCube]

theorem maxAbs_cons (a : ℚ) (t : Vec) : maxAbs (a :: t) = max |a| (maxAbs t) := rfl

theorem maxAbs_nonneg (xs : Vec) : 0 ≤ maxAbs xs := by
  induction xs with
  | nil => simp [maxAbs]
  | cons a t ih => rw [maxAbs_cons]; exact le_trans ih (le_max_right _ _)

theorem le_maxAbs (xs : Vec) (x : ℚ) (hx : x ∈ xs) : |x| ≤ maxAbs xs := by
  induction xs with
  | nil => cases hx
  | cons a t ih =>
    rw [maxAbs_cons]
    rcases List.mem_cons.mp hx with h | h
    · exact h ▸ le_max_left _ _
    · exact le_trans (ih h) (le_max_right _ _)

theorem maxAbs_eq_zero {xs : Vec} (h : maxAbs xs = 0) : ∀ x ∈ xs, x = 0 :=
  fun x hx => abs_eq_zero.mp (le_antisymm (h ▸ le_maxAbs xs x hx) (abs_nonneg x))

theorem gcScale_eq_zero {w : Vec} {asc : Bool} (h : gcScale w asc = 0) :
    ∀ x ∈ w, x = 0 := by
  cases asc with
  | false => simp [gcScale] at h
  | true => exact maxAbs_eq_zero (by simpa [gcScale] using h)

theorem map_div_mul_scale (w xs : Vec) (asc : Bool)
    (hmem : ∀ x ∈ xs, x ∈ w ∨ gcScale w asc ≠ 0) :
    (xs.map (fun x => x / gcScale w asc)).map (fun x => x * gcScale w asc) = xs := by
  rw [List.map_map]
  have : ∀ x ∈ xs, ((fun x => x * gcScale w asc) ∘ fun x => x / gcScale w asc) x = id x := by
    intro x hx
    by_cases h : gcScale w asc = 0
    · rcases hmem x hx with hxw | hne
      · simp [h, gcScale_eq_zero h x hxw]
      · exact absurd h hne
    · simp [div_mul_cancel₀ x h]
  rw [List.map_congr_left this, List.map_id]

/-- The PSF buffer is always restored exactly: `w /= scale` followed by
`w *= scale` is the identity (when the scale is zero the PSF was all
zeros, and the buffer ends as all zeros again). -/
theorem gentleClean_wBuf (p : CleanPass) (dd w : Vec) (area : List Bool)
    (tol : ℚ) (sd : Bool) (mi : ℕ) (asc : Bool) :
    (gentleClean p dd w area tol sd mi asc).wBuf = w := by
  show (wScaled w asc).map (fun x => x * gcScale w asc) = w
  exact map_div_mul_scale w w asc (fun x hx => Or.inl hx)

/-! Lemmas about the main loop. -/

theorem gcLoop_exit (p : CleanPass) (w1 : Vec) (area : List Bool) (sd : Bool)
    (tol : ℚ) (mi : ℕ) (fuel : ℕ) (st : GCState)
    (h : ¬(st.insideV > st.outsideV ∧ 0 < mi)) :
    gcLoop p w1 area sd tol mi fuel st = st := by
  cases fuel with
  | zero => rfl
  | succ f => simp only [gcLoop, if_neg h]

theorem gcLoop_cont (p : CleanPass) (w1 : Vec) (area : List Bool) (sd : Bool)
    (tol : ℚ) (mi : ℕ) (fuel : ℕ) (st : GCState)
    (h : st.insideV > st.outsideV ∧ 0 < mi)
    (hn : ¬(gcStep p w1 area sd tol mi st).ncycle > 1000) :
    gcLoop p w1 area sd tol mi (fuel + 1) st =
      gcLoop p w1 area sd tol mi fuel (gcStep p w1 area sd tol mi st) := by
  simp only [gcLoop, if_pos h, if_neg hn]

theorem gcStep_ncycle (p : CleanPass) (w1 : Vec) (area : List Bool) (sd : Bool)
    (tol : ℚ) (mi : ℕ) (st : GCState) :
    (gcStep p w1 area sd tol mi st).ncycle = st.ncycle + 1 := rfl

theorem gcLoop_ncycle_le (p : CleanPass) (w1 : Vec) (area : List Bool) (sd : Bool)
    (tol : ℚ) (mi : ℕ) :
    ∀ (fuel : ℕ) (st : GCState),
      (gcLoop p w1 area sd tol mi fuel st).ncycle ≤ st.ncycle + fuel := by
  intro fuel
  induction fuel with
  | zero => intro st; exact Nat.le_refl _
  | succ f ih =>
    intro st
    by_cases h : st.insideV > st.outsideV ∧ 0 < mi
    · by_cases hn : (gcStep p w1 area sd tol mi st).ncycle > 1000
      · simp only [gcLoop, if_pos h, if_pos hn]
        rw [gcStep_ncycle]; omega
      · rw [gcLoop_cont p w1 area sd tol mi f st h hn]
        exact le_trans (ih _) (by rw [gcStep_ncycle]; omega)
    · rw [gcLoop_exit p w1 area sd tol mi _ st h]; omega

theorem gcLoop_ncycle_ge (p : CleanPass) (w1 : Vec) (area : List Bool) (sd : Bool)
    (tol : ℚ) (mi : ℕ) :
    ∀ (fuel : ℕ) (st : GCState),
      st.ncycle ≤ (gcLoop p w1 area sd tol mi fuel st).ncycle := by
  intro fuel
  induction fuel with
  | zero => intro st; exact Nat.le_refl _
  | succ f ih =>
    intro st
    by_cases h : st.insideV > st.outsideV ∧ 0 < mi
    · by_cases hn : (gcStep p w1 area sd tol mi st).ncycle > 1000
      · simp only [gcLoop, if_pos h, if_pos hn]
        rw [gcStep_ncycle]; omega
      · rw [gcLoop_cont p w1 area sd tol mi f st h hn]
        exact le_trans (by rw [gcStep_ncycle]; omega) (ih _)
    · rw [gcLoop_exit p w1 area sd tol mi _ st h]

theorem gcLoop_enter_ge (p : CleanPass) (w1 : Vec) (area : List Bool) (sd : Bool)
    (tol : ℚ) (mi : ℕ) (fuel : ℕ) (st : GCState)
    (h : st.insideV > st.outsideV ∧ 0 < mi) :
    st.ncycle + 1 ≤ (gcLoop p w1 area sd tol mi (fuel + 1) st).ncycle := by
  by_cases hn : (gcStep p w1 area sd tol mi st).ncycle > 1000
  · simp only [gcLoop, if_pos h, if_pos hn]
    rw [gcStep_ncycle]
  · rw [gcLoop_cont p w1 area sd tol mi fuel st h hn]
    calc st.ncycle + 1 = (gcStep p w1 area sd tol mi st).ncycle := (gcStep_ncycle _ _ _ _ _ _ _).symm
    _ ≤ _ := gcLoop_ncycle_ge p w1 area sd tol mi fuel _

/-- When the one-pass deconvolver returns its input spectrum unchanged as
residual, the loop state's spectrum never changes, so the loop can only
stop through the 1000-cycle hard break: starting from cycle counter
`1001 − fuel`, it ends at exactly 1001 executed cycles. -/
theorem gcLoop_const (p : CleanPass) (w1 : Vec) (area : List Bool) (sd : Bool)
    (tol : ℚ) (mi : ℕ)
    (hp : ∀ d : Vec, (p d w1 area sd true tol mi).2 = d) :
    ∀ (fuel : ℕ) (st : GCState),
      st.insideV > st.outsideV → 0 < mi →
      mvarQ (selArea st.dd area true) > mvarQ (selArea st.dd area false) →
      st.ncycle + fuel = 1001 →
      (gcLoop p w1 area sd tol mi fuel st).ncycle = 1001 := by
  intro fuel
  induction fuel with
  | zero =>
    intro st h1 h2 h3 h4
    simpa [gcLoop] using h4
  | succ f ih =>
    intro st h1 h2 h3 h4
    have hdd : (gcStep p w1 area sd tol mi st).dd = st.dd := by
      simp [gcStep, hp]
    by_cases hn : (gcStep p w1 area sd tol mi st).ncycle > 1000
    · simp only [gcLoop, if_pos (And.intro h1 h2), if_pos hn]
      rw [gcStep_ncycle] at hn ⊢
      omega
    · rw [gcLoop_cont p w1 area sd tol mi f st (And.intro h1 h2) hn]
      apply ih
      · show (gcStep p w1 area sd tol mi st).insideV > (gcStep p w1 area sd tol mi st).outsideV
        simp only [gcStep, hp]
        exact h3
      · exact h2
      · rw [hdd]; exact h3
      · rw [gcStep_ncycle]; omega

/-! Variance and selection lemmas: the comparisons the source makes on
`NP.std` values transfer to the mean squared deviations, and scaling the
data scales the mean squared deviation by the square of the factor. -/

theorem selArea_map (xs : Vec) (area : List Bool) (o : Bool) (f : ℚ → ℚ) :
    selArea (xs.map f) area o = (selArea xs area o).map f := by
  unfold selArea
  rw [List.zip_map_left, List.filter_map, List.map_map, List.map_map]
  congr 1

theorem sum_map_div (xs : Vec) (s : ℚ) :
    (xs.map (fun x => x / s)).sum = xs.sum / s := by
  induction xs with
  | nil => simp
  | cons a t ih => simp [ih, add_div]

theorem meanQ_map_div (xs : Vec) (s : ℚ) :
    meanQ (xs.map (fun x => x / s)) = meanQ xs / s := by
  unfold meanQ
  rw [List.length_map, sum_map_div]
  ring

theorem mvarQ_map_div (xs : Vec) (s : ℚ) :
    mvarQ (xs.map (fun x => x / s)) = mvarQ xs / s ^ 2 := by
  unfold mvarQ
  rw [meanQ_map_div, List.length_map, List.map_map]
  have h : ∀ x ∈ xs, ((fun x => (x - meanQ xs / s) ^ 2) ∘ fun x => x / s) x =
      (fun x => (x - meanQ xs) ^ 2 / s ^ 2) x := by
    intro x _
    show (x / s - meanQ xs / s) ^ 2 = (x - meanQ xs) ^ 2 / s ^ 2
    rw [div_sub_div_same, div_pow]
  rw [List.map_congr_left h]
  have h2 : (xs.map (fun x => (x - meanQ xs) ^ 2 / s ^ 2)).sum =
      (xs.map (fun x => (x - meanQ xs) ^ 2)).sum / s ^ 2 := by
    have := sum_map_div (xs.map (fun x => (x - meanQ xs) ^ 2)) (s ^ 2)
    rw [List.map_map] at this
    exact this
  rw [h2]
  ring

theorem gcScale_nonneg (w : Vec) (asc : Bool) : 0 ≤ gcScale w asc := by
  cases asc with
  | false => norm_num [gcScale]
  | true => simpa [gcScale] using maxAbs_nonneg w

/-- The out-of-window mean squared deviation of the scaled working
spectrum, in terms of that of the input spectrum. -/
theorem ddScaled_outsideVar (dd w : Vec) (area : List Bool) (asc : Bool) :
    mvarQ (selArea (ddScaled dd w asc) area false) =
      mvarQ (selArea dd area false) / gcScale w asc ^ 2 := by
  rw [ddScaled, selArea_map, mvarQ_map_div]

/-! Projection lemmas for `gcInit`, `gentleClean` and `cleanCore`. -/

theorem gcInit_dd (p : CleanPass) (dd w : Vec) (area : List Bool) (tol : ℚ)
    (mi : ℕ) (asc : Bool) :
    (gcInit p dd w area tol mi asc).dd = ddScaled dd w asc := rfl

theorem gcInit_cc (p : CleanPass) (dd w : Vec) (area : List Bool) (tol : ℚ)
    (mi : ℕ) (asc : Bool) :
    (gcInit p dd w area tol mi asc).cc =
      List.replicate (ddScaled dd w asc).length 0 := rfl

theorem gcInit_insideV (p : CleanPass) (dd w : Vec) (area : List Bool) (tol : ℚ)
    (mi : ℕ) (asc : Bool) :
    (gcInit p dd w area tol mi asc).insideV =
      4 * mvarQ (selArea (ddScaled dd w asc) area false) := rfl

theorem gcInit_outsideV (p : CleanPass) (dd w : Vec) (area : List Bool) (tol : ℚ)
    (mi : ℕ) (asc : Bool) :
    (gcInit p dd w area tol mi asc).outsideV =
      mvarQ (selArea (ddScaled dd w asc) area false) := rfl

theorem gcInit_ncycle (p : CleanPass) (dd w : Vec) (area : List Bool) (tol : ℚ)
    (mi : ℕ) (asc : Bool) :
    (gcInit p dd w area tol mi asc).ncycle = 0 := rfl

theorem gentleClean_cycles (p : CleanPass) (dd w : Vec) (area : List Bool)
    (tol : ℚ) (sd : Bool) (mi : ℕ) (asc : Bool) :
    (gentleClean p dd w area tol sd mi asc).cycles =
      (gcFinal p dd w area tol sd mi asc).ncycle := rfl

theorem gentleClean_ncycleReported (p : CleanPass) (dd w : Vec) (area : List Bool)
    (tol : ℚ) (sd : Bool) (mi : ℕ) (asc : Bool) :
    (gentleClean p dd w area tol sd mi asc).ncycleReported =
      ((gcFinal p dd w area tol sd mi asc).ncycle : ℤ) - 1 := rfl

theorem gentleClean_cc (p : CleanPass) (dd w : Vec) (area : List Bool)
    (tol : ℚ) (sd : Bool) (mi : ℕ) (asc : Bool) :
    (gentleClean p dd w area tol sd mi asc).cc =
      (gcFinal p dd w area tol sd mi asc).cc.map
        (fun x => x * gcScale w asc) := rfl

theorem gentleClean_ddBuf (p : CleanPass) (dd w : Vec) (area : List Bool)
    (tol : ℚ) (sd : Bool) (mi : ℕ) (asc : Bool) :
    (gentleClean p dd w area tol sd mi asc).ddBuf =
      if (gcFinal p dd w area tol sd mi asc).ncycle = 0 then
        (ddScaled dd w asc).map (fun x => x * gcScale w asc)
      else ddScaled dd w asc := rfl

/-! Linearity of the embedded transforms. -/

theorem scaleCube_buildCube (q : ℚ) (nbl L na : ℕ) (f : ℕ → ℕ → ℕ → ℚ) :
    scaleCube q (buildCube nbl L na f) =
      buildCube nbl L na (fun b k s => q * f b k s) := by
  simp [scaleCube, buildCube, List.map_map]

theorem addCube_buildCube (nbl L na : ℕ) (f g : ℕ → ℕ → ℕ → ℚ) :
    addCube nbl L na (buildCube nbl L na f) (buildCube nbl L na g) =
      buildCube nbl L na (fun b k s => f b k s + g b k s) := by
  unfold addCube
  apply buildCube_congr
  intro b hb k hk s hs
  rw [getD3_buildCube nbl L na f b k s hb hk hs,
    getD3_buildCube nbl L na g b k s hb hk hs]

theorem dftCube_addCube (w : ℚ) (nbl L na : ℕ) (x y : Cube) :
    dftCube w nbl L na (addCube nbl L na x y) =
      addCube nbl L na (dftCube w nbl L na x) (dftCube w nbl L na y) := by
  unfold dftCube
  rw [addCube_buildCube]
  apply buildCube_congr
  intro b hb n hn s hs
  have h : ∀ k ∈ List.range L,
      (fun k => getD3 (addCube nbl L na x y) b k s * w ^ (k * n)) k =
        (fun k => getD3 x b k s * w ^ (k * n) + getD3 y b k s * w ^ (k * n)) k := by
    intro k hk
    show getD3 (addCube nbl L na x y) b k s * w ^ (k * n) = _
    rw [show getD3 (addCube nbl L na x y) b k s = getD3 x b k s + getD3 y b k s from
      getD3_buildCube nbl L na _ b k s hb (List.mem_range.mp hk) hs]
    ring
  rw [List.map_congr_left h, List.sum_map_add]

/-- The source computes the net frequency product as the sum of the two
forward transforms; by linearity this is the transform of the summed
delay-domain product. -/
theorem addCube_scale_dft (q w : ℚ) (nbl L na : ℕ) (x y : Cube) :
    addCube nbl L na (scaleCube q (dftCube w nbl L na x))
      (scaleCube q (dftCube w nbl L na y)) =
      scaleCube q (dftCube w nbl L na (addCube nbl L na x y)) := by
  rw [dftCube_addCube]
  unfold dftCube
  rw [scaleCube_buildCube, scaleCube_buildCube, addCube_buildCube, addCube_buildCube,
    scaleCube_buildCube]
  apply buildCube_congr
  intro b hb n hn s hs
  ring

/-! Projection lemmas for `cleanCore`. -/

theorem cleanCore_skyvisLag (p : CleanPass) (wi wf : ℚ) (P : SimParams) (padv buf : ℚ) :
    (cleanCore p wi wf P padv buf).skyvisLag =
      fftshiftCube P.nbl (cleanL P.N padv) P.na (skyBufCube p wi P padv buf) := rfl

theorem cleanCore_visLag (p : CleanPass) (wi wf : ℚ) (P : SimParams) (padv buf : ℚ) :
    (cleanCore p wi wf P padv buf).visLag =
      fftshiftCube P.nbl (cleanL P.N padv) P.na (visBufCube p wi P padv buf) := rfl

theorem cleanCore_lagKernel (p : CleanPass) (wi wf : ℚ) (P : SimParams) (padv buf : ℚ) :
    (cleanCore p wi wf P padv buf).lagKernel =
      fftshiftCube P.nbl (cleanL P.N padv) P.na (kernelBufCube p wi P padv buf) := rfl

theorem cleanCore_ccSkyNetFreq (p : CleanPass) (wi wf : ℚ) (P : SimParams) (padv buf : ℚ) :
    (cleanCore p wi wf P padv buf).ccSkyNetFreq =
      addCube P.nbl (cleanL P.N padv) P.na (ccSkyFreqCube p wi wf P padv buf)
        (ccSkyResFreqCube p wi wf P padv buf) := rfl

theorem cleanCore_ccVisNetFreq (p : CleanPass) (wi wf : ℚ) (P : SimParams) (padv buf : ℚ) :
    (cleanCore p wi wf P padv buf).ccVisNetFreq =
      addCube P.nbl (cleanL P.N padv) P.na (ccVisFreqCube p wi wf P padv buf)
        (ccVisResFreqCube p wi wf P padv buf) := rfl

/-- Entries of an fftshifted cube, at in-range indices. -/
theorem getD3_fftshiftCube (nbl L na : ℕ) (c : Cube) (b n s : ℕ)
    (hb : b < nbl) (hn : n < L) (hs : s < na) :
    getD3 (fftshiftCube nbl L na c) b n s = getD3 c b (fftshiftIdx L n) s :=
  getD3_buildCube nbl L na _ b n s hb hn hs

theorem fftshiftIdx_lt (L n : ℕ) (hL : 0 < L) : fftshiftIdx L n < L :=
  Nat.mod_lt _ hL

/-! Lengths of the delay-transform products. -/

theorem spectralAxis_length (n : ℕ) (df : ℚ) : (spectralAxis n df).length = n := by
  simp [spectralAxis]

theorem fftshiftVec_length (xs : Vec) : (fftshiftVec xs).length = xs.length := by
  simp [fftshiftVec]

theorem buildCube_row_length (nbl L na : ℕ) (f : ℕ → ℕ → ℕ → ℚ) (b : ℕ)
    (hb : b < nbl) : ((buildCube nbl L na f).getD b []).length = L := by
  unfold buildCube
  rw [getD_map_range _ _ _ _ hb]
  simp

/-- Python `int(N * (1 + p))` agrees with `N + int(N * p)` for p ≥ 0 (exact
rational arithmetic; `int()` truncates). -/
theorem toNat_floor_mul_one_add (N : ℕ) (p : ℚ) (hp : 0 ≤ p) :
    Int.toNat (Int.floor ((N : ℚ) * (1 + p))) = N + cleanNpad N p := by
  have h1 : (N : ℚ) * (1 + p) = ((N : ℤ) : ℚ) + (N : ℚ) * p := by push_cast; ring
  rw [h1, Int.floor_int_add,
    Int.toNat_add (by positivity) (Int.floor_nonneg.mpr (by positivity))]
  simp [cleanNpad]

theorem filter_range_lt_length (L Nn : ℕ) (h : Nn ≤ L) :
    ((List.range L).filter (fun i => decide (i < Nn))).length = Nn := by
  induction L with
  | zero =>
    have h0 : Nn = 0 := Nat.le_zero.mp h
    subst h0
    rfl
  | succ L ih =>
    rw [List.range_succ, List.filter_append]
    by_cases hN : Nn ≤ L
    · have hnot : ¬ (L < Nn) := by omega
      rw [List.length_append, ih hN]
      simp [hnot]
    · have hNn : Nn = L + 1 := by omega
      subst hNn
      have hall : (List.range L).filter (fun i => decide (i < L + 1)) = List.range L := by
        apply List.filter_eq_self.mpr
        intro a ha
        exact decide_eq_true (by have := List.mem_range.mp ha; omega)
      rw [List.length_append, hall]
      simp

/-- Modelled-from-spec downsampling by the factor 1 + p returns exactly N
elements out of the N + ⌊N·p⌋ the padded transform produced. -/
theorem downsampler_length_pad {α : Type} (d : α) (xs : List α) (N : ℕ) (p : ℚ)
    (hp : 0 ≤ p) (hlen : xs.length = N + cleanNpad N p) :
    (downsampler d xs (1 + p)).length = N := by
  have hL : xs.length = Int.toNat (Int.floor ((N : ℚ) * (1 + p))) := by
    rw [hlen, toNat_floor_mul_one_add N p hp]
  have hfl0 : (0 : ℤ) ≤ Int.floor ((N : ℚ) * (1 + p)) :=
    Int.floor_nonneg.mpr (by positivity)
  have hcastL : (xs.length : ℚ) = ((Int.floor ((N : ℚ) * (1 + p)) : ℤ) : ℚ) := by
    rw [hL]
    exact_mod_cast congrArg (fun z : ℤ => (z : ℚ)) (Int.toNat_of_nonneg hfl0)
  have hub : (xs.length : ℚ) ≤ (N : ℚ) * (1 + p) := by
    rw [hcastL]; exact Int.floor_le _
  have hlb : (N : ℚ) * (1 + p) - 1 < (xs.length : ℚ) := by
    rw [hcastL]; exact Int.sub_one_lt_floor _
  have hiff : ∀ i : ℕ, ((i : ℚ) * (1 + p) < (xs.length : ℚ)) ↔ i < N := by
    intro i
    constructor
    · intro hlt
      by_contra hge
      push_neg at hge
      have hi : (N : ℚ) ≤ (i : ℚ) := by exact_mod_cast hge
      have : (N : ℚ) * (1 + p) ≤ (i : ℚ) * (1 + p) :=
        mul_le_mul_of_nonneg_right hi (by linarith)
      linarith
    · intro hlt
      have hi : (i : ℚ) + 1 ≤ (N : ℚ) := by exact_mod_cast hlt
      have h2 : (i : ℚ) * (1 + p) ≤ ((N : ℚ) - 1) * (1 + p) :=
        mul_le_mul_of_nonneg_right (by linarith) (by linarith)
      have h3 : ((N : ℚ) - 1) * (1 + p) = (N : ℚ) * (1 + p) - (1 + p) := by ring
      linarith
  unfold downsampler
  rw [List.length_map]
  have hcongr : ∀ i ∈ List.range xs.length,
      (decide ((i : ℚ) * (1 + p) < (xs.length : ℚ))) = (decide (i < N)) := by
    intro i _
    exact decide_eq_decide.mpr (hiff i)
  rw [List.filter_congr hcongr, filter_range_lt_length xs.length N (by omega)]

/-! Projection lemmas for `dtCore`. -/

theorem dtCore_lagsFull (wi : ℚ) (P : SimParams) (padv : ℚ) (ds : Bool) :
    (dtCore wi P padv ds).lagsFull =
      fftshiftVec (spectralAxis (Int.toNat (Int.floor ((P.N : ℚ) * (1 + padv)))) P.df) := rfl

theorem dtCore_skyvisLagFull (wi : ℚ) (P : SimParams) (padv : ℚ) (ds : Bool) :
    (dtCore wi P padv ds).skyvisLagFull =
      fftshiftCube P.nbl (cleanL P.N padv) P.na
        (lagTransform wi P.nbl P.N P.na P.df padv (weightedSky P)) := rfl

theorem dtCore_visLagFull (wi : ℚ) (P : SimParams) (padv : ℚ) (ds : Bool) :
    (dtCore wi P padv ds).visLagFull =
      fftshiftCube P.nbl (cleanL P.N padv) P.na
        (lagTransform wi P.nbl P.N P.na P.df padv (weightedVis P)) := rfl

theorem dtCore_visNoiseLagFull (wi : ℚ) (P : SimParams) (padv : ℚ) (ds : Bool) :
    (dtCore wi P padv ds).visNoiseLagFull =
      fftshiftCube P.nbl (cleanL P.N padv) P.na
        (lagTransform wi P.nbl P.N P.na P.df padv
          (mulCube3 P.nbl P.N P.na P.visNoiseFreq P.bp P.bpWts)) := rfl

theorem dtCore_lagKernelFull (wi : ℚ) (P : SimParams) (padv : ℚ) (ds : Bool) :
    (dtCore wi P padv ds).lagKernelFull =
      fftshiftCube P.nbl (cleanL P.N padv) P.na
        (lagTransform wi P.nbl P.N P.na P.df padv
          (mulCube2 P.nbl P.N P.na P.bp P.bpWts)) := rfl

theorem dtCore_lags (wi : ℚ) (P : SimParams) (padv : ℚ) (ds : Bool) :
    (dtCore wi P padv ds).lags =
      if ds then downsampler 0 (dtCore wi P padv ds).lagsFull (1 + padv)
      else (dtCore wi P padv ds).lagsFull := rfl

theorem dtCore_skyvisLag (wi : ℚ) (P : SimParams) (padv : ℚ) (ds : Bool) :
    (dtCore wi P padv ds).skyvisLag =
      if ds then downsampleCube (1 + padv) (dtCore wi P padv ds).skyvisLagFull
      else (dtCore wi P padv ds).skyvisLagFull := rfl

theorem dtCore_visLag (wi : ℚ) (P : SimParams) (padv : ℚ) (ds : Bool) :
    (dtCore wi P padv ds).visLag =
      if ds then downsampleCube (1 + padv) (dtCore wi P padv ds).visLagFull
      else (dtCore wi P padv ds).visLagFull := rfl

theorem dtCore_visNoiseLag (wi : ℚ) (P : SimParams) (padv : ℚ) (ds : Bool) :
    (dtCore wi P padv ds).visNoiseLag =
      if ds then downsampleCube (1 + padv) (dtCore wi P padv ds).visNoiseLagFull
      else (dtCore wi P padv ds).visNoiseLagFull := rfl

theorem dtCore_lagKernel (wi : ℚ) (P : SimParams) (padv : ℚ) (ds : Bool) :
    (dtCore wi P padv ds).lagKernel =
      if ds then downsampleCube (1 + padv) (dtCore wi P padv ds).lagKernelFull
      else (dtCore wi P padv ds).lagKernelFull := rfl

theorem fftshiftCube_row_length (nbl L na : ℕ) (c : Cube) (b : ℕ) (hb : b < nbl) :
    ((fftshiftCube nbl L na c).getD b []).length = L :=
  buildCube_row_length nbl L na _ b hb

theorem fftshiftCube_length (nbl L na : ℕ) (c : Cube) :
    (fftshiftCube nbl L na c).length = nbl :=
  buildCube_length nbl L na _

theorem downsampleCube_row (f : ℚ) (c : Cube) (b : ℕ) (hb : b < c.length) :
    (downsampleCube f c).getD b [] = downsampler [] (c.getD b []) f :=
  getD_map_gen (fun m => downsampler [] m f) c b [] [] hb

theorem cleanCore_deta (p : CleanPass) (wi wf : ℚ) (P : SimParams) (padv buf : ℚ) :
    (cleanCore p wi wf P padv buf).deta = cleanDeta P padv := rfl

theorem cleanCore_ccSkyNetLag (p : CleanPass) (wi wf : ℚ) (P : SimParams) (padv buf : ℚ) :
    (cleanCore p wi wf P padv buf).ccSkyNetLag =
      addCube P.nbl (cleanL P.N padv) P.na
        (fftshiftCube P.nbl (cleanL P.N padv) P.na (ccSkyRawCube p wi P padv buf))
        (fftshiftCube P.nbl (cleanL P.N padv) P.na (ccSkyResRawCube p wi P padv buf)) := rfl

/-! ### Claim theorems -/

/-- C4: the claim states that whenever any pointing-center delay offset
exceeds half a delay bin (0.5/(nchan·df)), every timestamp is processed
independently, and otherwise all timestamps are batched. The code does the
opposite: the `NP.any(|offset| > 0.5/nchan/df)` condition at
interferometry.py line 1272 selects the batched branch. With a single
offset of 1 s, one channel and df = 1 Hz the offset (1) exceeds half a
delay bin (1/2), yet the embedded branch selector takes the batched path —
contradicting the claim, the spec, and the code's own inline comments. -/
theorem c4_branch_inverted :
    anyLargeOffset [1] 1 1 = true ∧
      noiseEstimateBranch [1] 1 1 = NoiseBranch.batched := by
  norm_num [noiseEstimateBranch, anyLargeOffset]

/-- C1: the claim states the clean mask handed to the deconvolver for each
(snapshot, baseline) unit is 1 exactly on that unit's buffered horizon
window and 0 elsewhere, recomputed from scratch per unit. In the code the
`clean_area` buffer is allocated once (delay_spectrum.py line 572) and only
ever has ones written into it (line 587), never reset. On `exTwoBl`
(nchan = 4, df = 1, pad = 0, buffer = 0, two baselines with windows
[−1/8, 1/8] and [3/16, 5/16]), the window of unit (s=0, b=1) excludes the
zero lag (index 0), yet the mask actually used for that unit still carries
the 1 written there by unit (s=0, b=0). -/
theorem c1_mask_not_recomputed :
    (windowMask (cleanLags exTwoBl 0) (exTwoBl.horizonLo 0 1) (exTwoBl.horizonHi 0 1)
        0 (exTwoBl.df * (exTwoBl.N : ℚ))).getD 0 false = false ∧
      (maskUsed exTwoBl 0 0 (exTwoBl.df * (exTwoBl.N : ℚ)) 1 0).getD 0 false = true := by
  norm_num [windowMask, maskUsed, cleanAreaUpto, orMask, cleanLags, spectralAxis,
    fftIdx, cleanL, cleanNpad, exTwoBl, List.range_succ]

/-- C3: the claim states an all-zero PSF makes `_gentle_clean` fail with a
`DegeneratePSF` error before any clean pass. The source has no such guard:
it computes `scale_factor = nanmax(|psf|) = 0`, divides by it (a numpy
warning, not an exception) and invokes the deconvolver. The embedding is
total because the code raises nothing on this path: at the all-zero PSF the
call returns normally, having invoked the one-pass deconvolver once. -/
theorem c3_no_degenerate_psf_guard :
    maxAbs [0, 0] = 0 ∧
      (gentleClean passZero [1, 2] [0, 0] [true, false] (1/10) false 100 true).passCalls = 1 ∧
      (gentleClean passZero [1, 2] [0, 0] [true, false] (1/10) false 100 true).ncycleReported = -1 := by
  have hfin : gcFinal passZero [1, 2] [0, 0] [true, false] (1/10) false 100 true =
      { dd := [0, 0], cc := [0, 0], res := [0, 0], insideV := 0, outsideV := 0, ncycle := 0 } := by
    rw [gcFinal,
      show gcInit passZero [1, 2] [0, 0] [true, false] (1/10) 100 true =
        { dd := [0, 0], cc := [0, 0], res := [0, 0], insideV := 0, outsideV := 0,
          ncycle := 0 } from by
        norm_num [gcInit, ddScaled, wScaled, gcScale, maxAbs, selArea, meanQ, mvarQ,
          passZero, List.replicate]]
    exact gcLoop_exit _ _ _ _ _ _ _ _ (by norm_num)
  refine ⟨by norm_num [maxAbs], ?_, ?_⟩
  · show 1 + (gcFinal passZero [1, 2] [0, 0] [true, false] (1/10) false 100 true).ncycle = 1
    rw [hfin]
    rfl
  · rw [gentleClean_ncycleReported, hfin]
    rfl

/-- C6 (amended): for nchan = N and pad fraction p ≥ 0, the lag axis and
the four transformed cubes have `N + int(N*p) = int(N*(1+p))` bins along
the delay axis before downsampling (Python `int()` truncates — not
`round` as the claim states), the number of appended zero channels is
`int(N*p)`, and exactly N bins remain after downsampling when downsample
is enabled. -/
theorem c6_lengths (wi : ℚ) (P : SimParams) (pq : ℚ) (hp : 0 ≤ pq) (ds : Bool) :
    (dtEmbed wi P pq ds).lagsFull.length = P.N + cleanNpad P.N pq ∧
    (cleanNpad P.N pq : ℤ) = Int.floor ((P.N : ℚ) * pq) ∧
    (∀ b, b < P.nbl →
      ((dtEmbed wi P pq ds).skyvisLagFull.getD b []).length = P.N + cleanNpad P.N pq ∧
      ((dtEmbed wi P pq ds).visLagFull.getD b []).length = P.N + cleanNpad P.N pq ∧
      ((dtEmbed wi P pq ds).visNoiseLagFull.getD b []).length = P.N + cleanNpad P.N pq ∧
      ((dtEmbed wi P pq ds).lagKernelFull.getD b []).length = P.N + cleanNpad P.N pq) ∧
    (ds = true →
      (dtEmbed wi P pq ds).lags.length = P.N ∧
      ∀ b, b < P.nbl →
        ((dtEmbed wi P pq ds).skyvisLag.getD b []).length = P.N ∧
        ((dtEmbed wi P pq ds).visLag.getD b []).length = P.N ∧
        ((dtEmbed wi P pq ds).visNoiseLag.getD b []).length = P.N ∧
        ((dtEmbed wi P pq ds).lagKernel.getD b []).length = P.N) := by
  have he : dtEmbed wi P pq ds = dtCore wi P pq ds := by
    simp [dtEmbed, if_neg (not_lt.mpr hp)]
  have hlagsFull : (dtCore wi P pq ds).lagsFull.length = P.N + cleanNpad P.N pq := by
    rw [dtCore_lagsFull, fftshiftVec_length, spectralAxis_length,
      toNat_floor_mul_one_add P.N pq hp]
  refine ⟨he ▸ hlagsFull, ?_, ?_, ?_⟩
  · rw [cleanNpad, Int.toNat_of_nonneg (Int.floor_nonneg.mpr (by positivity))]
  · intro b hb
    rw [he, dtCore_skyvisLagFull, dtCore_visLagFull, dtCore_visNoiseLagFull,
      dtCore_lagKernelFull]
    exact ⟨fftshiftCube_row_length _ _ _ _ b hb, fftshiftCube_row_length _ _ _ _ b hb,
      fftshiftCube_row_length _ _ _ _ b hb, fftshiftCube_row_length _ _ _ _ b hb⟩
  · intro hds
    subst hds
    constructor
    · rw [he, dtCore_lags, if_pos rfl]
      exact downsampler_length_pad 0 _ P.N pq hp hlagsFull
    · intro b hb
      have hrow : ∀ c : Cube, ((fftshiftCube P.nbl (cleanL P.N pq) P.na c).getD b []).length
          = P.N + cleanNpad P.N pq := by
        intro c
        rw [fftshiftCube_row_length P.nbl (cleanL P.N pq) P.na c b hb]
        rfl
      have hlen : ∀ c : Cube,
          ((downsampleCube (1 + pq) (fftshiftCube P.nbl (cleanL P.N pq) P.na c)).getD b []).length
            = P.N := by
        intro c
        rw [downsampleCube_row (1 + pq) _ b (by rw [fftshiftCube_length]; exact hb)]
        exact downsampler_length_pad [] _ P.N pq hp (hrow c)
      rw [he, dtCore_skyvisLag, dtCore_visLag, dtCore_visNoiseLag, dtCore_lagKernel,
        if_pos rfl, if_pos rfl, if_pos rfl, if_pos rfl, dtCore_skyvisLagFull,
        dtCore_visLagFull, dtCore_visNoiseLagFull, dtCore_lagKernelFull]
      exact ⟨hlen _, hlen _, hlen _, hlen _⟩

/-- C6 witness: the amended length theorem applied at N = 10, p = 26/100,
downsample enabled. -/
theorem c6_lengths_witness :
    (0 : ℚ) ≤ 26/100 ∧
      ((dtEmbed (-1) exTenChan (26/100) true).lagsFull.length =
        exTenChan.N + cleanNpad exTenChan.N (26/100) ∧
      (cleanNpad exTenChan.N (26/100) : ℤ) = Int.floor ((exTenChan.N : ℚ) * (26/100)) ∧
      (∀ b, b < exTenChan.nbl →
        ((dtEmbed (-1) exTenChan (26/100) true).skyvisLagFull.getD b []).length =
          exTenChan.N + cleanNpad exTenChan.N (26/100) ∧
        ((dtEmbed (-1) exTenChan (26/100) true).visLagFull.getD b []).length =
          exTenChan.N + cleanNpad exTenChan.N (26/100) ∧
        ((dtEmbed (-1) exTenChan (26/100) true).visNoiseLagFull.getD b []).length =
          exTenChan.N + cleanNpad exTenChan.N (26/100) ∧
        ((dtEmbed (-1) exTenChan (26/100) true).lagKernelFull.getD b []).length =
          exTenChan.N + cleanNpad exTenChan.N (26/100)) ∧
      (true = true →
        (dtEmbed (-1) exTenChan (26/100) true).lags.length = exTenChan.N ∧
        ∀ b, b < exTenChan.nbl →
          ((dtEmbed (-1) exTenChan (26/100) true).skyvisLag.getD b []).length = exTenChan.N ∧
          ((dtEmbed (-1) exTenChan (26/100) true).visLag.getD b []).length = exTenChan.N ∧
          ((dtEmbed (-1) exTenChan (26/100) true).visNoiseLag.getD b []).length = exTenChan.N ∧
          ((dtEmbed (-1) exTenChan (26/100) true).lagKernel.getD b []).length = exTenChan.N)) :=
  ⟨by norm_num, c6_lengths (-1) exTenChan (26/100) (by norm_num) true⟩

/-- C6 counterexample to the claim as stated: at N = 10, p = 0.26 the
computed lag axis has `int(12.6) = 12` bins, not `round(12.6) = 13`, and
the number of appended zero channels is `int(2.6) = 2`, not
`round(2.6) = 3`. -/
theorem c6_round_refuted :
    ((dtEmbed (-1) exTenChan (26/100) false).lagsFull.length : ℤ) ≠
        round ((10 : ℚ) * (1 + 26/100)) ∧
      (cleanNpad 10 (26/100) : ℤ) ≠ round ((10 : ℚ) * (26/100)) := by
  have hfl : Int.floor ((10 : ℚ) * (1 + 26/100)) = 12 := by
    norm_num [Int.floor_eq_iff]
  have hlen : (dtEmbed (-1) exTenChan (26/100) false).lagsFull.length = 12 := by
    rw [show dtEmbed (-1) exTenChan (26/100) false = dtCore (-1) exTenChan (26/100) false from
        by norm_num [dtEmbed],
      dtCore_lagsFull, fftshiftVec_length, spectralAxis_length]
    norm_num [exTenChan, hfl]
    rfl
  have hnp : cleanNpad 10 (26/100) = 2 := by
    have h2 : Int.floor ((10 : ℚ) * (26/100)) = 2 := by norm_num [Int.floor_eq_iff]
    norm_num [cleanNpad, h2]
    rfl
  have hr1 : round ((10 : ℚ) * (1 + 26/100)) = 13 := by
    norm_num [round_eq, Int.floor_eq_iff]
  have hr2 : round ((10 : ℚ) * (26/100)) = 3 := by
    norm_num [round_eq, Int.floor_eq_iff]
  rw [hlen, hnp, hr1, hr2]
  norm_num

/-- C8: a negative pad passed to `delay_transform()` or `clean()` does not
raise; it is silently reset to 0.0 (lines 460-463 and 554-557, with only a
diagnostic print) and the entire computation produces exactly the outputs
of a call with pad = 0. -/
theorem c8_negative_pad (p : CleanPass) (wi wf : ℚ) (P : SimParams) (pad : ℚ)
    (hpad : pad < 0) (ds : Bool) (buf : ℚ) :
    dtEmbed wi P pad ds = dtEmbed wi P 0 ds ∧
      cleanEmbed p wi wf P pad buf = cleanEmbed p wi wf P 0 buf := by
  constructor
  · simp [dtEmbed, if_pos hpad]
  · simp [cleanEmbed, if_pos hpad]

/-- C8 witness: pad = −1/2 on the concrete two-channel instance. -/
theorem c8_negative_pad_witness :
    (-(1/2) : ℚ) < 0 ∧
      (dtEmbed (-1) exTwoChan (-(1/2)) true = dtEmbed (-1) exTwoChan 0 true ∧
        cleanEmbed passZero (-1) (-1) exTwoChan (-(1/2)) 1 =
          cleanEmbed passZero (-1) (-1) exTwoChan 0 1) :=
  ⟨by norm_num,
    c8_negative_pad passZero (-1) (-1) exTwoChan (-(1/2)) (by norm_num) true 1⟩

/-- C7 (amended): for every input spectrum, PSF, mask, tolerance and
iteration cap, and every behaviour of the one-pass deconvolver,
`_gentle_clean` returns within 1001 executions of its main loop body (not
1000 as the claim states: the counter is checked only after the body has
run, so the body can execute a 1001st time), and the reported
`info['ncycle']`, which is one less than the number of executed cycles, is
always ≤ 1000. -/
theorem c7_cycle_bounds (p : CleanPass) (dd w : Vec) (area : List Bool)
    (tol : ℚ) (sd : Bool) (mi : ℕ) (asc : Bool) :
    (gentleClean p dd w area tol sd mi asc).cycles ≤ 1001 ∧
      (gentleClean p dd w area tol sd mi asc).ncycleReported ≤ 1000 := by
  have h := gcLoop_ncycle_le p (wScaled w asc) area sd tol mi 1001
    (gcInit p dd w area tol mi asc)
  rw [gcInit_ncycle] at h
  have hc : (gcFinal p dd w area tol sd mi asc).ncycle ≤ 1001 := by
    rw [gcFinal]; simpa using h
  constructor
  · rw [gentleClean_cycles]; exact hc
  · rw [gentleClean_ncycleReported]; omega

/-- C7 counterexample to the claim as stated: when the one-pass deconvolver
finds nothing (components 0, residual = input) on a spectrum whose
in-window deviation stays above the out-of-window deviation, the main loop
body executes 1001 times — more than the 1000 cycles the claim allows —
and the reported ncycle is exactly 1000. -/
theorem c7_counterexample :
    1000 < (gentleClean passZero [0, 100, 0, 1] [1, 0, 0, 0] [true, true, false, false]
        (1/10) false 100 true).cycles ∧
      (gentleClean passZero [0, 100, 0, 1] [1, 0, 0, 0] [true, true, false, false]
        (1/10) false 100 true).ncycleReported = 1000 := by
  have hp : ∀ d : Vec,
      (passZero d (wScaled [1, 0, 0, 0] true) [true, true, false, false] false true
        (1/10) 100).2 = d := fun d => rfl
  have hdd : (gcInit passZero [0, 100, 0, 1] [1, 0, 0, 0] [true, true, false, false]
      (1/10) 100 true).dd = [0, 100, 0, 1] := by
    rw [gcInit_dd]
    norm_num [ddScaled, gcScale, maxAbs]
  have hcyc : (gcFinal passZero [0, 100, 0, 1] [1, 0, 0, 0] [true, true, false, false]
      (1/10) false 100 true).ncycle = 1001 := by
    rw [gcFinal]
    apply gcLoop_const passZero (wScaled [1, 0, 0, 0] true) [true, true, false, false]
      false (1/10) 100 hp 1001
    · rw [gcInit_insideV, gcInit_outsideV]
      norm_num [ddScaled, gcScale, maxAbs, selArea, mvarQ, meanQ, List.zip, List.filter]
    · norm_num
    · rw [hdd]
      norm_num [selArea, mvarQ, meanQ, List.zip, List.filter]
    · rw [gcInit_ncycle]
  constructor
  · rw [gentleClean_cycles, hcyc]; norm_num
  · rw [gentleClean_ncycleReported, hcyc]; norm_num

/-- C10 (amended): if the outside-mask standard deviation of the input
spectrum is zero (equivalently, its mean squared deviation is zero), the
main loop runs zero times, the returned components are all zero, and the
reported ncycle is −1 — for every behaviour of the one-pass deconvolver.
If the outside-mask deviation is strictly positive, maxiter > 0, and — the
condition the claim omits — the normalisation scale is nonzero (an
all-zero PSF under autoscale makes the scaled working spectrum degenerate
and the loop is skipped), the loop runs at least once and the reported
ncycle is ≥ 0. -/
theorem c10_loop_behavior (p : CleanPass) (dd w : Vec) (area : List Bool)
    (tol : ℚ) (sd : Bool) (mi : ℕ) (asc : Bool) :
    (mvarQ (selArea dd area false) = 0 →
      (gentleClean p dd w area tol sd mi asc).cycles = 0 ∧
      (gentleClean p dd w area tol sd mi asc).cc = List.replicate dd.length 0 ∧
      (gentleClean p dd w area tol sd mi asc).ncycleReported = -1) ∧
    (0 < mvarQ (selArea dd area false) → 0 < mi → gcScale w asc ≠ 0 →
      1 ≤ (gentleClean p dd w area tol sd mi asc).cycles ∧
      0 ≤ (gentleClean p dd w area tol sd mi asc).ncycleReported) := by
  constructor
  · intro h0
    have hov : mvarQ (selArea (ddScaled dd w asc) area false) = 0 := by
      rw [ddScaled_outsideVar, h0, zero_div]
    have hexit : gcFinal p dd w area tol sd mi asc = gcInit p dd w area tol mi asc := by
      rw [gcFinal]
      apply gcLoop_exit
      rw [gcInit_insideV, gcInit_outsideV, hov]
      norm_num
    refine ⟨?_, ?_, ?_⟩
    · rw [gentleClean_cycles, hexit, gcInit_ncycle]
    · rw [gentleClean_cc, hexit, gcInit_cc, List.map_replicate, zero_mul, ddScaled,
        List.length_map]
    · rw [gentleClean_ncycleReported, hexit, gcInit_ncycle]
      rfl
  · intro h0 hmi hsc
    have hscpos : 0 < gcScale w asc :=
      lt_of_le_of_ne (gcScale_nonneg w asc) (Ne.symm hsc)
    have hov : 0 < mvarQ (selArea (ddScaled dd w asc) area false) := by
      rw [ddScaled_outsideVar]
      exact div_pos h0 (pow_pos hscpos 2)
    have hcond : (gcInit p dd w area tol mi asc).insideV >
        (gcInit p dd w area tol mi asc).outsideV ∧ 0 < mi := by
      rw [gcInit_insideV, gcInit_outsideV]
      exact ⟨by linarith, hmi⟩
    have h1 : 1 ≤ (gcFinal p dd w area tol sd mi asc).ncycle := by
      rw [gcFinal]
      have h2 := gcLoop_enter_ge p (wScaled w asc) area sd tol mi 1000
        (gcInit p dd w area tol mi asc) hcond
      rw [gcInit_ncycle] at h2
      simpa using h2
    constructor
    · rw [gentleClean_cycles]; exact h1
    · rw [gentleClean_ncycleReported]; omega

/-- C10 witness: the zero-deviation branch on a constant outside spectrum,
and the positive branch on a spectrum with empty mask and nondegenerate
PSF. -/
theorem c10_loop_behavior_witness :
    (mvarQ (selArea [5, 5] [true, false] false) = 0 ∧
      (gentleClean passZero [5, 5] [1, 0] [true, false] (1/10) false 100 true).cycles = 0 ∧
      (gentleClean passZero [5, 5] [1, 0] [true, false] (1/10) false 100 true).cc =
        List.replicate ([5, 5] : Vec).length 0 ∧
      (gentleClean passZero [5, 5] [1, 0] [true, false] (1/10) false 100
        true).ncycleReported = -1) ∧
    (0 < mvarQ (selArea [4, -2] [false, false] false) ∧ (0 : ℕ) < 100 ∧
      gcScale [2, 0] true ≠ 0 ∧
      1 ≤ (gentleClean passZero [4, -2] [2, 0] [false, false] (1/10) false 100 true).cycles ∧
      0 ≤ (gentleClean passZero [4, -2] [2, 0] [false, false] (1/10) false 100
        true).ncycleReported) := by
  have hz : mvarQ (selArea [5, 5] [true, false] false) = 0 := by
    norm_num [selArea, mvarQ, meanQ, List.zip, List.filter]
  have hpos : 0 < mvarQ (selArea [4, -2] [false, false] false) := by
    norm_num [selArea, mvarQ, meanQ, List.zip, List.filter]
  have hsc : gcScale [2, 0] true ≠ 0 := by norm_num [gcScale, maxAbs]
  have hA := (c10_loop_behavior passZero [5, 5] [1, 0] [true, false] (1/10) false
    100 true).1 hz
  have hB := (c10_loop_behavior passZero [4, -2] [2, 0] [false, false] (1/10) false
    100 true).2 hpos (by norm_num) hsc
  exact ⟨⟨hz, hA.1, hA.2.1, hA.2.2⟩, ⟨hpos, by norm_num, hsc, hB.1, hB.2⟩⟩

/-- C10 counterexample to the claim as stated: an all-zero PSF with
autoscale makes the working spectrum 0/0 (non-finite in numpy, zero in the
rational embedding — in both conventions the loop condition fails), so the
main loop executes zero times even though the input spectrum's
outside-mask deviation is strictly positive and maxiter = 100 > 0. -/
theorem c10_counterexample :
    0 < mvarQ (selArea [0, 1, 0, 2] [true, false, true, false] false) ∧
      (0 : ℕ) < 100 ∧
      (gentleClean passZero [0, 1, 0, 2] [0, 0, 0, 0] [true, false, true, false]
        (1/10) false 100 true).cycles = 0 := by
  refine ⟨by norm_num [selArea, mvarQ, meanQ, List.zip, List.filter], by norm_num, ?_⟩
  rw [gentleClean_cycles, gcFinal,
    gcLoop_exit _ _ _ _ _ _ _ _ (by
      rw [gcInit_insideV, gcInit_outsideV]
      norm_num [ddScaled, gcScale, maxAbs, selArea, mvarQ, meanQ, List.zip, List.filter]),
    gcInit_ncycle]

/-- Padding the product of the bandpass with the all-ones weighting is the
same as padding the bandpass alone. -/
theorem padCube_mulCube2_ones (nbl N na npad : ℕ) (bp : Cube) :
    padCube nbl N na npad (mulCube2 nbl N na bp (onesCube nbl N na)) =
      padCube nbl N na npad bp := by
  unfold padCube
  apply buildCube_congr
  intro b hb k hk s hs
  by_cases hkN : k < N
  · simp only [if_pos hkN]
    rw [show getD3 (mulCube2 nbl N na bp (onesCube nbl N na)) b k s =
        getD3 bp b k s * getD3 (onesCube nbl N na) b k s from
      getD3_buildCube _ _ _ _ b k s hb hkN hs,
      show getD3 (onesCube nbl N na) b k s = 1 from
        getD3_buildCube _ _ _ _ b k s hb hkN hs]
    ring
  · simp [if_neg hkN]

/-- C5 (amended): the lag kernel computed by `delay_transform()` equals
the spec formula — the padded, `(nchan+npad)*df`-scaled inverse transform
of `bp * bp_wts` (fftshifted, since the transform there uses shift=True) —
but the lag kernel computed by `clean()` (line 575) transforms `self.bp`
alone: it equals the spec formula with the bandpass weights replaced by
all ones, not the formula with the actual `bp_wts`. -/
theorem c5_lag_kernel (wi : ℚ) (P : SimParams) (padv : ℚ) (ds : Bool) :
    (dtCore wi P padv ds).lagKernelFull =
      fftshiftCube P.nbl (cleanL P.N padv) P.na
        (specLagKernel wi P.nbl P.N P.na P.df padv P.bp P.bpWts) ∧
    cleanKernelCube wi P padv =
      specLagKernel wi P.nbl P.N P.na P.df padv P.bp (onesCube P.nbl P.N P.na) := by
  constructor
  · rw [dtCore_lagKernelFull]
    rfl
  · show lagTransform wi P.nbl P.N P.na P.df padv P.bp = _
    unfold lagTransform specLagKernel
    rw [padCube_mulCube2_ones]
    rfl

/-- C2 (amended): after `clean()`, for both the sky and the observed cube
the stored net delay product equals clean components plus residual exactly
as stored, and the stored net frequency product equals the forward DFT of
the sum of the UNSHIFTED components and residual cubes scaled by the
lag-bin width — exactly (not merely within 1e-6), by linearity of the
transform. It is the DFT of the unshifted net, not of the stored
(fftshifted) net delay product, that reproduces the stored net frequency
product (see the counterexample). -/
theorem c2_net_products (p : CleanPass) (wi wf : ℚ) (P : SimParams) (padv buf : ℚ) :
    (cleanCore p wi wf P padv buf).ccSkyNetLag =
      addCube P.nbl (cleanL P.N padv) P.na (cleanCore p wi wf P padv buf).ccSkyLag
        (cleanCore p wi wf P padv buf).ccSkyResLag ∧
    (cleanCore p wi wf P padv buf).ccVisNetLag =
      addCube P.nbl (cleanL P.N padv) P.na (cleanCore p wi wf P padv buf).ccVisLag
        (cleanCore p wi wf P padv buf).ccVisResLag ∧
    (cleanCore p wi wf P padv buf).ccSkyNetFreq =
      scaleCube (cleanCore p wi wf P padv buf).deta
        (dftCube wf P.nbl (cleanL P.N padv) P.na
          (addCube P.nbl (cleanL P.N padv) P.na
            (cleanCore p wi wf P padv buf).ccSkyRaw
            (cleanCore p wi wf P padv buf).ccSkyResRaw)) ∧
    (cleanCore p wi wf P padv buf).ccVisNetFreq =
      scaleCube (cleanCore p wi wf P padv buf).deta
        (dftCube wf P.nbl (cleanL P.N padv) P.na
          (addCube P.nbl (cleanL P.N padv) P.na
            (cleanCore p wi wf P padv buf).ccVisRaw
            (cleanCore p wi wf P padv buf).ccVisResRaw)) := by
  refine ⟨rfl, rfl, ?_, ?_⟩
  · rw [cleanCore_ccSkyNetFreq]
    show addCube P.nbl (cleanL P.N padv) P.na
      (scaleCube (cleanDeta P padv) (dftCube wf P.nbl (cleanL P.N padv) P.na
        (ccSkyRawCube p wi P padv buf)))
      (scaleCube (cleanDeta P padv) (dftCube wf P.nbl (cleanL P.N padv) P.na
        (ccSkyResRawCube p wi P padv buf))) = _
    rw [addCube_scale_dft]
    rfl
  · rw [cleanCore_ccVisNetFreq]
    show addCube P.nbl (cleanL P.N padv) P.na
      (scaleCube (cleanDeta P padv) (dftCube wf P.nbl (cleanL P.N padv) P.na
        (ccVisRawCube p wi P padv buf)))
      (scaleCube (cleanDeta P padv) (dftCube wf P.nbl (cleanL P.N padv) P.na
        (ccVisResRawCube p wi P padv buf))) = _
    rw [addCube_scale_dft]
    rfl

/-- Evaluation of the gentle-clean state on the two-channel instance with
window mask [1, 0]: both residual-deviation selections are singletons, so
both deviations are 0 and the main loop runs zero times. -/
theorem gcFinal_twoChanMasked :
    gcFinal passZero [4, -2] [2, 0] [true, false] (1/10) false 100 true =
      { dd := [2, -1], cc := [0, 0], res := [2, -1], insideV := 0, outsideV := 0,
        ncycle := 0 } := by
  rw [gcFinal,
    show gcInit passZero [4, -2] [2, 0] [true, false] (1/10) 100 true =
      { dd := [2, -1], cc := [0, 0], res := [2, -1], insideV := 0, outsideV := 0,
        ncycle := 0 } from by
      norm_num [gcInit, ddScaled, wScaled, gcScale, maxAbs, selArea, meanQ, mvarQ,
        passZero, List.replicate, List.zip, List.filter]]
  exact gcLoop_exit _ _ _ _ _ _ _ _ (by norm_num)

/-- Evaluation of the sky-side `_gentle_clean` call of the single unit of
`exTwoChan`: the loop runs zero times, so the components are zero, the
residual is the scaled diagnostic-pass residual, and the caller's spectrum
buffer is restored. -/
theorem gcSkyUnit_exTwoChan :
    gcSkyUnit passZero (-1) exTwoChan 0 0 0 0 =
      { cc := [0, 0], res := [2, -1], ddBuf := [4, -2], wBuf := [2, 0],
        cycles := 0, ncycleReported := -1, passCalls := 1 } := by
  have hsl : sliceCube (skyLagCube (-1) exTwoChan 0) (cleanL exTwoChan.N 0) 0 0 = [4, -2] := by
    norm_num [sliceCube, skyLagCube, lagTransform, weightedSky, mulCube3, padCube,
      idftCube, scaleCube, buildCube, getD3, cleanL, cleanNpad, List.range_succ, exTwoChan]
  have hk : sliceCube (cleanKernelCube (-1) exTwoChan 0) (cleanL exTwoChan.N 0) 0 0 = [2, 0] := by
    norm_num [sliceCube, cleanKernelCube, lagTransform, padCube,
      idftCube, scaleCube, buildCube, getD3, cleanL, cleanNpad, List.range_succ, exTwoChan]
  have hm : maskUsed exTwoChan 0 0 (exTwoChan.df * (exTwoChan.N : ℚ)) 0 0 = [true, false] := by
    norm_num [maskUsed, cleanAreaUpto, windowMask, orMask, cleanLags, spectralAxis,
      fftIdx, cleanL, cleanNpad, exTwoChan, List.range_succ, List.replicate, List.zipWith]
  rw [gcSkyUnit, hsl, hk, hm]
  show gentleClean passZero [4, -2] [2, 0] [true, false] (1/10) false 100 true = _
  simp only [gentleClean, gcFinal_twoChanMasked]
  norm_num [ddScaled, wScaled, gcScale, maxAbs]

/-- C2 counterexample to the claim as stated: on `exTwoChan` the stored
net frequency entry at index 1 is −3/2, while the forward DFT of the
stored (fftshifted) net delay product scaled by the lag-bin width gives
+3/2 there — a relative error of 2, far beyond 1e-6. The stored net delay
product is fftshifted, the frequency products are transforms of the
unshifted arrays, and the two differ. -/
theorem c2_counterexample :
    ¬(|getD3 (cleanCore passZero (-1) (-1) exTwoChan 0 0).ccSkyNetFreq 0 1 0 -
        (cleanCore passZero (-1) (-1) exTwoChan 0 0).deta *
          (dftVec (-1) (sliceCube (cleanCore passZero (-1) (-1) exTwoChan 0 0).ccSkyNetLag
            2 0 0)).getD 1 0| ≤
      1/1000000 *
        |(cleanCore passZero (-1) (-1) exTwoChan 0 0).deta *
          (dftVec (-1) (sliceCube (cleanCore passZero (-1) (-1) exTwoChan 0 0).ccSkyNetLag
            2 0 0)).getD 1 0|) := by
  have hrawS : ccSkyRawCube passZero (-1) exTwoChan 0 0 = [[[0], [0]]] := by
    norm_num [ccSkyRawCube, buildCube, List.range_succ, gcSkyUnit_exTwoChan, cleanL,
      cleanNpad, show exTwoChan.nbl = 1 from rfl, show exTwoChan.N = 2 from rfl,
      show exTwoChan.na = 1 from rfl]
  have hrawR : ccSkyResRawCube passZero (-1) exTwoChan 0 0 = [[[2], [-1]]] := by
    norm_num [ccSkyResRawCube, buildCube, List.range_succ, gcSkyUnit_exTwoChan, cleanL,
      cleanNpad, show exTwoChan.nbl = 1 from rfl, show exTwoChan.N = 2 from rfl,
      show exTwoChan.na = 1 from rfl]
  have hdeta : cleanDeta exTwoChan 0 = -(1/2) := by
    norm_num [cleanDeta, cleanLags, spectralAxis, fftIdx, cleanL, cleanNpad, exTwoChan,
      List.range_succ]
  have hF : getD3 (cleanCore passZero (-1) (-1) exTwoChan 0 0).ccSkyNetFreq 0 1 0 =
      -(3/2) := by
    rw [cleanCore_ccSkyNetFreq]
    unfold ccSkyFreqCube ccSkyResFreqCube
    rw [hrawS, hrawR, hdeta]
    norm_num [addCube, scaleCube, dftCube, buildCube, getD3, List.range_succ, cleanL,
      cleanNpad, show exTwoChan.nbl = 1 from rfl, show exTwoChan.N = 2 from rfl,
      show exTwoChan.na = 1 from rfl]
  have hslice : sliceCube (cleanCore passZero (-1) (-1) exTwoChan 0 0).ccSkyNetLag 2 0 0 =
      [-1, 2] := by
    rw [cleanCore_ccSkyNetLag, hrawS, hrawR]
    norm_num [sliceCube, addCube, fftshiftCube, fftshiftIdx, buildCube, getD3,
      List.range_succ, cleanL, cleanNpad, show exTwoChan.nbl = 1 from rfl,
      show exTwoChan.N = 2 from rfl, show exTwoChan.na = 1 from rfl]
  have hG : (dftVec (-1) (sliceCube (cleanCore passZero (-1) (-1) exTwoChan 0 0).ccSkyNetLag
      2 0 0)).getD 1 0 = -3 := by
    rw [hslice]
    norm_num [dftVec, List.range_succ]
  rw [hF, hG, cleanCore_deta, hdeta]
  norm_num [abs_of_nonneg]

/-- C5 counterexample to the claim as stated: with bandpass weights
[1, 2], the kernel `clean()` computes (entry 2 at lag 0, from bp = [1, 1])
differs from the spec formula's transform of `bp * bp_wts` (entry 3 at
lag 0). -/
theorem c5_counterexample :
    getD3 (cleanKernelCube (-1) exWeighted 0) 0 0 0 ≠
      getD3 (specLagKernel (-1) exWeighted.nbl exWeighted.N exWeighted.na exWeighted.df 0
        exWeighted.bp exWeighted.bpWts) 0 0 0 := by
  norm_num [cleanKernelCube, specLagKernel, lagTransform, mulCube2, padCube, idftCube,
    scaleCube, buildCube, getD3, cleanL, cleanNpad, onesCube, exWeighted, List.range_succ]

/-- C9 (amended): `_gentle_clean` divides its spectrum argument in place
by the peak kernel magnitude; whenever its main loop executes at least
once the buffer is left divided (never multiplied back), so the
corresponding slice of the stored `skyvis_lag`/`vis_lag` equals the delay
transform divided by the peak magnitude of that slice's lag kernel (with
the fftshift applied on storage); when the loop executes zero times the
final `dd *= scale` still refers to the original buffer and restores it.
The PSF buffer, and hence the stored `lag_kernel`, is always restored to
its unscaled values. -/
theorem c9_inplace_scaling (p : CleanPass) (wi wf : ℚ) (P : SimParams) (padv buf : ℚ)
    (b n s : ℕ) (hb : b < P.nbl) (hn : n < cleanL P.N padv) (hs : s < P.na) :
    ((gcSkyUnit p wi P padv buf b s).wBuf =
        sliceCube (cleanKernelCube wi P padv) (cleanL P.N padv) b s ∧
      (gcVisUnit p wi P padv buf b s).wBuf =
        sliceCube (cleanKernelCube wi P padv) (cleanL P.N padv) b s) ∧
    (1 ≤ (gcSkyUnit p wi P padv buf b s).cycles →
      (gcSkyUnit p wi P padv buf b s).ddBuf =
        (sliceCube (skyLagCube wi P padv) (cleanL P.N padv) b s).map
          (fun x => x / maxAbs (sliceCube (cleanKernelCube wi P padv)
            (cleanL P.N padv) b s)) ∧
      getD3 (cleanCore p wi wf P padv buf).skyvisLag b n s =
        getD3 (skyLagCube wi P padv) b (fftshiftIdx (cleanL P.N padv) n) s /
          maxAbs (sliceCube (cleanKernelCube wi P padv) (cleanL P.N padv) b s)) ∧
    (1 ≤ (gcVisUnit p wi P padv buf b s).cycles →
      getD3 (cleanCore p wi wf P padv buf).visLag b n s =
        getD3 (visLagCube wi P padv) b (fftshiftIdx (cleanL P.N padv) n) s /
          maxAbs (sliceCube (cleanKernelCube wi P padv) (cleanL P.N padv) b s)) ∧
    getD3 (cleanCore p wi wf P padv buf).lagKernel b n s =
      getD3 (cleanKernelCube wi P padv) b (fftshiftIdx (cleanL P.N padv) n) s := by
  have hL : 0 < cleanL P.N padv := lt_of_le_of_lt (Nat.zero_le n) hn
  have hk : fftshiftIdx (cleanL P.N padv) n < cleanL P.N padv := fftshiftIdx_lt _ n hL
  have hscale : gcScale (sliceCube (cleanKernelCube wi P padv) (cleanL P.N padv) b s) true =
      maxAbs (sliceCube (cleanKernelCube wi P padv) (cleanL P.N padv) b s) := rfl
  have hddSky : 1 ≤ (gcSkyUnit p wi P padv buf b s).cycles →
      (gcSkyUnit p wi P padv buf b s).ddBuf =
        (sliceCube (skyLagCube wi P padv) (cleanL P.N padv) b s).map
          (fun x => x / maxAbs (sliceCube (cleanKernelCube wi P padv)
            (cleanL P.N padv) b s)) := by
    intro hc
    rw [gcSkyUnit] at hc ⊢
    rw [gentleClean_ddBuf, if_neg (by rw [← gentleClean_cycles]; omega), ddScaled, hscale]
  have hddVis : 1 ≤ (gcVisUnit p wi P padv buf b s).cycles →
      (gcVisUnit p wi P padv buf b s).ddBuf =
        (sliceCube (visLagCube wi P padv) (cleanL P.N padv) b s).map
          (fun x => x / maxAbs (sliceCube (cleanKernelCube wi P padv)
            (cleanL P.N padv) b s)) := by
    intro hc
    rw [gcVisUnit] at hc ⊢
    rw [gentleClean_ddBuf, if_neg (by rw [← gentleClean_cycles]; omega), ddScaled, hscale]
  refine ⟨⟨gentleClean_wBuf _ _ _ _ _ _ _ _, gentleClean_wBuf _ _ _ _ _ _ _ _⟩,
    ?_, ?_, ?_⟩
  · intro hc
    refine ⟨hddSky hc, ?_⟩
    rw [cleanCore_skyvisLag, getD3_fftshiftCube _ _ _ _ b n s hb hn hs]
    rw [show getD3 (skyBufCube p wi P padv buf) b (fftshiftIdx (cleanL P.N padv) n) s =
        (gcSkyUnit p wi P padv buf b s).ddBuf.getD (fftshiftIdx (cleanL P.N padv) n) 0 from
      getD3_buildCube _ _ _ _ b _ s hb hk hs]
    rw [hddSky hc, getD_map _ _ _ (by rw [sliceCube_length]; exact hk),
      sliceCube_getD _ _ _ _ _ hk]
  · intro hc
    rw [cleanCore_visLag, getD3_fftshiftCube _ _ _ _ b n s hb hn hs]
    rw [show getD3 (visBufCube p wi P padv buf) b (fftshiftIdx (cleanL P.N padv) n) s =
        (gcVisUnit p wi P padv buf b s).ddBuf.getD (fftshiftIdx (cleanL P.N padv) n) 0 from
      getD3_buildCube _ _ _ _ b _ s hb hk hs]
    rw [hddVis hc, getD_map _ _ _ (by rw [sliceCube_length]; exact hk),
      sliceCube_getD _ _ _ _ _ hk]
  · rw [cleanCore_lagKernel, getD3_fftshiftCube _ _ _ _ b n s hb hn hs]
    rw [show getD3 (kernelBufCube p wi P padv buf) b (fftshiftIdx (cleanL P.N padv) n) s =
        (gcVisUnit p wi P padv buf b s).wBuf.getD (fftshiftIdx (cleanL P.N padv) n) 0 from
      getD3_buildCube _ _ _ _ b _ s hb hk hs]
    rw [show (gcVisUnit p wi P padv buf b s).wBuf =
        sliceCube (cleanKernelCube wi P padv) (cleanL P.N padv) b s from
      gentleClean_wBuf _ _ _ _ _ _ _ _,
      sliceCube_getD _ _ _ _ _ hk]

/-- Evaluation of the gentle-clean state on the two-channel instance with
an empty window mask: the out-of-window deviation is positive, so the
main loop runs exactly once before the in-window deviation (of an empty
selection) stops it. -/
theorem gcFinal_emptyMask :
    gcFinal passZero [4, -2] [2, 0] [false, false] (1/10) false 100 true =
      { dd := [2, -1], cc := [0, 0], res := [2, -1], insideV := 0, outsideV := 9/4,
        ncycle := 1 } := by
  have hinit : gcInit passZero [4, -2] [2, 0] [false, false] (1/10) 100 true =
      { dd := [2, -1], cc := [0, 0], res := [2, -1], insideV := 9, outsideV := 9/4,
        ncycle := 0 } := by
    norm_num [gcInit, ddScaled, wScaled, gcScale, maxAbs, selArea, meanQ, mvarQ,
      passZero, List.replicate, List.zip, List.filter]
  have hstep : gcStep passZero (wScaled [2, 0] true) [false, false] false (1/10) 100
      { dd := [2, -1], cc := [0, 0], res := [2, -1], insideV := 9, outsideV := 9/4,
        ncycle := 0 } =
      { dd := [2, -1], cc := [0, 0], res := [2, -1], insideV := 0, outsideV := 9/4,
        ncycle := 1 } := by
    norm_num [gcStep, passZero, selArea, mvarQ, meanQ, List.zip, List.filter,
      List.replicate, List.zipWith]
  rw [gcFinal, hinit,
    gcLoop_cont passZero (wScaled [2, 0] true) [false, false] false (1/10) 100 1000 _
      (by norm_num) (by rw [hstep]; norm_num),
    hstep, gcLoop_exit _ _ _ _ _ _ _ _ (by norm_num)]

/-- Evaluation of the sky-side `_gentle_clean` call of the single unit of
`exEmptyMask`: one loop cycle runs, so the caller's spectrum buffer is
left scaled down by the kernel peak 2. -/
theorem gcSkyUnit_exEmptyMask :
    gcSkyUnit passZero (-1) exEmptyMask 0 0 0 0 =
      { cc := [0, 0], res := [4, -2], ddBuf := [2, -1], wBuf := [2, 0],
        cycles := 1, ncycleReported := 0, passCalls := 2 } := by
  have hsl : sliceCube (skyLagCube (-1) exEmptyMask 0) (cleanL exEmptyMask.N 0) 0 0 =
      [4, -2] := by
    norm_num [sliceCube, skyLagCube, lagTransform, weightedSky, mulCube3, padCube,
      idftCube, scaleCube, buildCube, getD3, cleanL, cleanNpad, List.range_succ, exEmptyMask]
  have hk : sliceCube (cleanKernelCube (-1) exEmptyMask 0) (cleanL exEmptyMask.N 0) 0 0 =
      [2, 0] := by
    norm_num [sliceCube, cleanKernelCube, lagTransform, padCube,
      idftCube, scaleCube, buildCube, getD3, cleanL, cleanNpad, List.range_succ, exEmptyMask]
  have hm : maskUsed exEmptyMask 0 0 (exEmptyMask.df * (exEmptyMask.N : ℚ)) 0 0 =
      [false, false] := by
    norm_num [maskUsed, cleanAreaUpto, windowMask, orMask, cleanLags, spectralAxis,
      fftIdx, cleanL, cleanNpad, exEmptyMask, List.range_succ, List.replicate, List.zipWith]
  rw [gcSkyUnit, hsl, hk, hm]
  show gentleClean passZero [4, -2] [2, 0] [false, false] (1/10) false 100 true = _
  simp only [gentleClean, gcFinal_emptyMask]
  norm_num [ddScaled, wScaled, gcScale, maxAbs]

/-- Evaluation of the observed-side `_gentle_clean` call of the single
unit of `exEmptyMask` (identical input cubes, so identical outcome). -/
theorem gcVisUnit_exEmptyMask :
    gcVisUnit passZero (-1) exEmptyMask 0 0 0 0 =
      { cc := [0, 0], res := [4, -2], ddBuf := [2, -1], wBuf := [2, 0],
        cycles := 1, ncycleReported := 0, passCalls := 2 } := by
  have hsl : sliceCube (visLagCube (-1) exEmptyMask 0) (cleanL exEmptyMask.N 0) 0 0 =
      [4, -2] := by
    norm_num [sliceCube, visLagCube, lagTransform, weightedVis, mulCube3, padCube,
      idftCube, scaleCube, buildCube, getD3, cleanL, cleanNpad, List.range_succ, exEmptyMask]
  have hk : sliceCube (cleanKernelCube (-1) exEmptyMask 0) (cleanL exEmptyMask.N 0) 0 0 =
      [2, 0] := by
    norm_num [sliceCube, cleanKernelCube, lagTransform, padCube,
      idftCube, scaleCube, buildCube, getD3, cleanL, cleanNpad, List.range_succ, exEmptyMask]
  have hm : maskUsed exEmptyMask 0 0 (exEmptyMask.df * (exEmptyMask.N : ℚ)) 0 0 =
      [false, false] := by
    norm_num [maskUsed, cleanAreaUpto, windowMask, orMask, cleanLags, spectralAxis,
      fftIdx, cleanL, cleanNpad, exEmptyMask, List.range_succ, List.replicate, List.zipWith]
  rw [gcVisUnit, hsl, hk, hm]
  show gentleClean passZero [4, -2] [2, 0] [false, false] (1/10) false 100 true = _
  simp only [gentleClean, gcFinal_emptyMask]
  norm_num [ddScaled, wScaled, gcScale, maxAbs]

/-- C9 witness: the amended in-place-scaling theorem applied to the single
unit of `exEmptyMask`, whose gentle-clean loops run once. -/
theorem c9_inplace_scaling_witness :
    (0 < exEmptyMask.nbl ∧ 0 < cleanL exEmptyMask.N 0 ∧ 0 < exEmptyMask.na ∧
      1 ≤ (gcSkyUnit passZero (-1) exEmptyMask 0 0 0 0).cycles ∧
      1 ≤ (gcVisUnit passZero (-1) exEmptyMask 0 0 0 0).cycles) ∧
    ((gcSkyUnit passZero (-1) exEmptyMask 0 0 0 0).ddBuf =
        (sliceCube (skyLagCube (-1) exEmptyMask 0) (cleanL exEmptyMask.N 0) 0 0).map
          (fun x => x / maxAbs (sliceCube (cleanKernelCube (-1) exEmptyMask 0)
            (cleanL exEmptyMask.N 0) 0 0)) ∧
      getD3 (cleanCore passZero (-1) (-1) exEmptyMask 0 0).skyvisLag 0 0 0 =
        getD3 (skyLagCube (-1) exEmptyMask 0) 0 (fftshiftIdx (cleanL exEmptyMask.N 0) 0) 0 /
          maxAbs (sliceCube (cleanKernelCube (-1) exEmptyMask 0)
            (cleanL exEmptyMask.N 0) 0 0) ∧
      getD3 (cleanCore passZero (-1) (-1) exEmptyMask 0 0).visLag 0 0 0 =
        getD3 (visLagCube (-1) exEmptyMask 0) 0 (fftshiftIdx (cleanL exEmptyMask.N 0) 0) 0 /
          maxAbs (sliceCube (cleanKernelCube (-1) exEmptyMask 0)
            (cleanL exEmptyMask.N 0) 0 0) ∧
      getD3 (cleanCore passZero (-1) (-1) exEmptyMask 0 0).lagKernel 0 0 0 =
        getD3 (cleanKernelCube (-1) exEmptyMask 0) 0
          (fftshiftIdx (cleanL exEmptyMask.N 0) 0) 0) := by
  have hb : 0 < exEmptyMask.nbl := by decide
  have hn : 0 < cleanL exEmptyMask.N 0 := by
    norm_num [cleanL, cleanNpad, show exEmptyMask.N = 2 from rfl]
  have hs : 0 < exEmptyMask.na := by decide
  have hsky : 1 ≤ (gcSkyUnit passZero (-1) exEmptyMask 0 0 0 0).cycles := by
    rw [gcSkyUnit_exEmptyMask]
  have hvis : 1 ≤ (gcVisUnit passZero (-1) exEmptyMask 0 0 0 0).cycles := by
    rw [gcVisUnit_exEmptyMask]
  have h := c9_inplace_scaling passZero (-1) (-1) exEmptyMask 0 0 0 0 0 hb hn hs
  exact ⟨⟨hb, hn, hs, hsky, hvis⟩,
    (h.2.1 hsky).1, (h.2.1 hsky).2, h.2.2.1 hvis, h.2.2.2⟩

/-- C9 counterexample to the claim as stated: when the main loop runs zero
times the local name `dd` still refers to the caller's buffer, so the
final `dd *= scale_factor` DOES multiply the original array back: on this
input the buffer ends restored to [4, −2], not left at the divided values
[2, −1]. -/
theorem c9_counterexample :
    (gentleClean passZero [4, -2] [2, 0] [true, false] (1/10) false 100 true).ddBuf =
        [4, -2] ∧
      ([4, -2] : Vec) ≠ ([4, -2] : Vec).map (fun x => x / maxAbs ([2, 0] : Vec)) := by
  constructor
  · rw [gentleClean_ddBuf, gcFinal_twoChanMasked, if_pos rfl]
    norm_num [ddScaled, gcScale, maxAbs]
  · norm_num [maxAbs]

end PRISim
